import Mathlib

/-!
# Verification of the geometric similarity engine (`src/utils/geo/similarity.py`)

This file gives a shallow embedding of the similarity engine and proves the
frozen claims about it.

Modelling choices, shared by every definition below:

* Geometries (shapely polygons / multipolygons) are modelled as finite unions
  of axis-aligned rational boxes (`Geom = List Box`, each box read as the
  half-open rectangle `[x1,x2) × [y1,y2)`).  Area, pairwise intersection and
  set difference are computed exactly over `ℚ`; floating point is replaced by
  exact rational arithmetic.
* `pandas`/`geopandas` tables are modelled column-wise: a `Frame` is an ordered
  association list of named columns of heterogeneous `Cell`s, matching how the
  source manipulates `GeoDataFrame`s column by column.
* Fallible library operations (column selection `df[cols]`, `row[key]`,
  `insert`, grouping on a missing key, `concat` of nothing, Python's
  `UnboundLocalError`) return `Except Err`.
-/

/-- An axis-aligned rational box, read as the half-open
rectangle `[x1,x2) × [y1,y2)`.  Degenerate boxes (`x2 ≤ x1` or `y2 ≤ y1`)
denote the empty region or a zero-width segment. -/
structure Box where
  x1 : ℚ
  x2 : ℚ
  y1 : ℚ
  y2 : ℚ
deriving DecidableEq, Repr

namespace Box

/-- Horizontal extent of a box. -/
def width (b : Box) : ℚ := b.x2 - b.x1

/-- Vertical extent of a box. -/
def height (b : Box) : ℚ := b.y2 - b.y1

/-- Area of the region denoted by a box; degenerate boxes have area `0`. -/
def area (b : Box) : ℚ := max b.width 0 * max b.height 0

/-- A box is degenerate when it denotes a region with empty interior. -/
def isDeg (b : Box) : Bool := decide (b.x2 ≤ b.x1) || decide (b.y2 ≤ b.y1)

theorem area_nonneg (b : Box) : 0 ≤ b.area := by
  exact mul_nonneg (le_max_right _ _) (le_max_right _ _)

end Box

/-- Intersection of two boxes (the rectangle intersection; may be degenerate). -/
def boxInter (a b : Box) : Box :=
  ⟨max a.x1 b.x1, min a.x2 b.x2, max a.y1 b.y1, min a.y2 b.y2⟩

/-- The set difference `a \ b`, decomposed into at most four boxes
(left strip, right strip, bottom middle, top middle), all contained in `a`. -/
def boxDiff (a b : Box) : List Box :=
  let i := boxInter a b
  if i.isDeg then [a]
  else
    [⟨a.x1, i.x1, a.y1, a.y2⟩, ⟨i.x2, a.x2, a.y1, a.y2⟩,
     ⟨i.x1, i.x2, a.y1, i.y1⟩, ⟨i.x1, i.x2, i.y2, a.y2⟩]

/-- A geometry value: a finite union of boxes.  The collections handled by the
source are unions of disjoint parts; area is the sum of the part areas. -/
abbrev Geom := List Box

/-- Total area of a geometry (sum of the areas of its parts). -/
def areaG (g : Geom) : ℚ := (g.map Box.area).sum

/-- Pairwise polygonal intersection of two geometries: all non-degenerate
pairwise box intersections (shapely drops lower-dimensional pieces from
polygon output; degenerate boxes carry no area either way). -/
def geomInter (a b : Geom) : Geom :=
  (a.flatMap fun p => b.map (boxInter p)).filter fun bx => !bx.isDeg

/-- Set difference `g \ c`: each part of `g` successively loses every part
of `c` via the `boxDiff` decomposition. -/
def geomDiff (g c : Geom) : Geom :=
  g.flatMap fun p => c.foldl (fun ps b => ps.flatMap fun q => boxDiff q b) [p]

theorem areaG_nil : areaG [] = 0 := rfl

theorem areaG_cons (b : Box) (g : Geom) : areaG (b :: g) = b.area + areaG g := by
  simp [areaG]

theorem areaG_append (g h : Geom) : areaG (g ++ h) = areaG g + areaG h := by
  simp [areaG]

theorem areaG_nonneg (g : Geom) : 0 ≤ areaG g := by
  induction g with
  | nil => simp [areaG]
  | cons b t ih =>
      rw [areaG_cons]
      exact add_nonneg b.area_nonneg ih

/-- The four-piece decomposition of `a \ b` never exceeds the area of `a`. -/
theorem areaG_boxDiff_le (a b : Box) : areaG (boxDiff a b) ≤ a.area := by
  by_cases hdeg : (boxInter a b).isDeg
  · simp [boxDiff, hdeg, areaG, Box.area]
  · have hnd : ¬(min a.x2 b.x2 ≤ max a.x1 b.x1) ∧ ¬(min a.y2 b.y2 ≤ max a.y1 b.y1) := by
      simpa [Box.isDeg, boxInter, not_or] using hdeg
    have hx : max a.x1 b.x1 < min a.x2 b.x2 := lt_of_not_le hnd.1
    have hy : max a.y1 b.y1 < min a.y2 b.y2 := lt_of_not_le hnd.2
    have hau : a.x1 ≤ max a.x1 b.x1 := le_max_left _ _
    have hva : min a.x2 b.x2 ≤ a.x2 := min_le_left _ _
    have has : a.y1 ≤ max a.y1 b.y1 := le_max_left _ _
    have hta : min a.y2 b.y2 ≤ a.y2 := min_le_left _ _
    have hdeg2 : (Box.mk (max a.x1 b.x1) (min a.x2 b.x2) (max a.y1 b.y1)
        (min a.y2 b.y2)).isDeg = false := by
      simpa [boxInter] using hdeg
    have e1 : max (max a.x1 b.x1 - a.x1) 0 = max a.x1 b.x1 - a.x1 :=
      max_eq_left (by linarith)
    have e2 : max (a.x2 - min a.x2 b.x2) 0 = a.x2 - min a.x2 b.x2 :=
      max_eq_left (by linarith)
    have e3 : max (min a.x2 b.x2 - max a.x1 b.x1) 0 = min a.x2 b.x2 - max a.x1 b.x1 :=
      max_eq_left (by linarith)
    have e4 : max (max a.y1 b.y1 - a.y1) 0 = max a.y1 b.y1 - a.y1 :=
      max_eq_left (by linarith)
    have e5 : max (a.y2 - min a.y2 b.y2) 0 = a.y2 - min a.y2 b.y2 :=
      max_eq_left (by linarith)
    have e6 : max (a.y2 - a.y1) 0 = a.y2 - a.y1 := max_eq_left (by linarith)
    have e7 : max (a.x2 - a.x1) 0 = a.x2 - a.x1 := max_eq_left (by linarith)
    simp only [boxDiff, boxInter, hdeg2, Bool.false_eq_true, if_false, areaG,
      List.map, List.sum_cons, List.sum_nil, Box.area, Box.width, Box.height,
      e1, e2, e3, e4, e5, e6, e7]
    nlinarith [hx, hy, hau, hva, has, hta]

/-- Removing one box from a list of pieces never increases the total area. -/
theorem areaG_flatMap_boxDiff_le (ps : List Box) (b : Box) :
    areaG (ps.flatMap fun q => boxDiff q b) ≤ areaG ps := by
  induction ps with
  | nil => simp [areaG]
  | cons p t ih =>
      rw [List.flatMap_cons, areaG_append, areaG_cons]
      exact add_le_add (areaG_boxDiff_le p b) ih

/-- Folding away every part of `c` never increases the total area. -/
theorem areaG_foldl_diff_le (c : List Box) :
    ∀ ps : List Box,
      areaG (c.foldl (fun ps b => ps.flatMap fun q => boxDiff q b) ps) ≤ areaG ps := by
  induction c with
  | nil => intro ps; simp
  | cons b t ih =>
      intro ps
      simp only [List.foldl_cons]
      exact le_trans (ih _) (areaG_flatMap_boxDiff_le ps b)

/-- Set difference cannot have more area than the original geometry. -/
theorem areaG_geomDiff_le (g c : Geom) : areaG (geomDiff g c) ≤ areaG g := by
  unfold geomDiff
  induction g with
  | nil => simp [areaG]
  | cons p t ih =>
      rw [List.flatMap_cons, areaG_append, areaG_cons]
      refine add_le_add ?_ ih
      have := areaG_foldl_diff_le c [p]
      simpa [areaG] using this

theorem areaG_geomInter_nonneg (a b : Geom) : 0 ≤ areaG (geomInter a b) :=
  areaG_nonneg _

/-! ## Tabular model: cells, frames, errors -/

/-- A table cell: a geometry, an exact-rational numeric value (floats in the
source are replaced by exact rationals), a string key value, or a missing
value (`NaN`). -/
inductive Cell where
  | g (geom : Geom)
  | q (val : ℚ)
  | s (txt : String)
  | nan
deriving DecidableEq, Repr

/-- Errors raised by the embedded pandas/geopandas operations:
`keyError` models `KeyError` (the missing label, `none` for Python `None`),
`unboundLocal` models `UnboundLocalError` for the named variable,
`valueError` models `ValueError`, `typeErr` models `TypeError`, and
`unsupportedMethod` is the purpose-built "unsupported method" failure that the
specification calls for (no code path of the source raises it). -/
inductive Err where
  | keyError (label : Option String)
  | unboundLocal (var : String)
  | valueError (msg : String)
  | typeErr
  | unsupportedMethod (m : String)
deriving DecidableEq, Repr

deriving instance DecidableEq for Except

/-- A `pandas`/`geopandas` table, modelled column-wise: an ordered association
list of named columns. -/
structure Frame where
  cols : List (String × List Cell)
deriving DecidableEq, Repr

namespace Frame

/-- The column labels, in order. -/
def colNames (f : Frame) : List String := f.cols.map (·.1)

/-- Look up a column by label (first match, like a pandas label lookup). -/
def col? (f : Frame) (n : String) : Option (List Cell) :=
  (f.cols.find? fun c => c.1 = n).map (·.2)

/-- Whether a column with the given label exists. -/
def hasCol (f : Frame) (n : String) : Bool := (f.col? n).isSome

/-- Number of records (length of the first column; `0` for a column-less
frame).  The frames built by the source always have columns of equal length. -/
def nRows (f : Frame) : Nat :=
  match f.cols with
  | [] => 0
  | c :: _ => c.2.length

/-- `df[n] = vs`: replace the values of column `n` in place when it exists
(every column with that label, label order unchanged), append a new column at
the end otherwise — pandas column-assignment semantics. -/
def setCol (f : Frame) (n : String) (vs : List Cell) : Frame :=
  if f.cols.any fun c => c.1 = n then
    ⟨f.cols.map fun c => if c.1 = n then (c.1, vs) else c⟩
  else ⟨f.cols ++ [(n, vs)]⟩

/-- `df.insert(0, n, v)`: insert a column at position 0 broadcasting the
scalar `v`; pandas raises `ValueError` when the label already exists. -/
def insertCol0 (f : Frame) (n : String) (v : Cell) : Except Err Frame :=
  if f.cols.any fun c => c.1 = n then .error (.valueError n)
  else .ok ⟨(n, List.replicate f.nRows v) :: f.cols⟩

end Frame

/-- Keep the entries of `vs` whose mask entry is `true` (boolean-mask row
filtering, applied per column). -/
def maskList (mask : List Bool) (vs : List Cell) : List Cell :=
  ((vs.zip mask).filter fun p => p.2).map (·.1)

/-- `df[mask]`: boolean-mask row filtering of a whole frame. -/
def Frame.maskRows (f : Frame) (mask : List Bool) : Frame :=
  ⟨f.cols.map fun c => (c.1, maskList mask c.2)⟩

/-- `df[[l₁, …]]`: column selection by a list of labels; a label that is no
column (or the label `None`) raises `KeyError`.  (pandas reports all missing
labels at once; the model reports the first.) -/
def selectCols (f : Frame) (ns : List (Option String)) : Except Err Frame := do
  let cs ← ns.mapM fun n? =>
    match n? with
    | none => .error (.keyError none)
    | some n =>
      match f.col? n with
      | some vs => pure (n, vs)
      | none => .error (.keyError (some n))
  pure ⟨cs⟩

/-- Read a geometry cell, defaulting to the empty geometry (the source only
ever reads geometry cells out of genuine geometry columns). -/
def cellGeomD : Cell → Geom
  | .g l => l
  | _ => []

/-- Read a numeric cell, defaulting to `0` (the source only ever reads numeric
cells out of the numeric columns it previously created). -/
def cellQ : Cell → ℚ
  | .q v => v
  | _ => 0

/-- The geometry column of a frame, as geometry values. -/
def geomColD (f : Frame) : List Geom := ((f.col? "geometry").getD []).map cellGeomD

/-- A named numeric column of a frame, as rationals. -/
def qColD (f : Frame) (n : String) : List ℚ := ((f.col? n).getD []).map cellQ

theorem find?_map_setCol (l : List (String × List Cell)) (n : String) (vs : List Cell)
    (h : l.any (fun c => c.1 = n) = true) :
    ((l.map fun c => if c.1 = n then (c.1, vs) else c).find? fun c => c.1 = n) =
      some (n, vs) := by
  induction l with
  | nil => simp at h
  | cons d t ih =>
      simp only [List.any_cons, Bool.or_eq_true, decide_eq_true_eq] at h
      by_cases hdn : d.1 = n
      · simp [List.find?, hdn]
      · have ht : t.any (fun c => c.1 = n) = true := by
          rcases h with h | h
          · exact absurd h hdn
          · exact h
        simp [List.find?, hdn, ih ht]

theorem find?_none_of_not_any (l : List (String × List Cell)) (n : String)
    (h : ¬(l.any (fun c => c.1 = n) = true)) :
    (l.find? fun c => c.1 = n) = none := by
  rw [List.find?_eq_none]
  intro c hc hd
  exact h (List.any_eq_true.mpr ⟨c, hc, hd⟩)

theorem Frame.col?_setCol_self (f : Frame) (n : String) (vs : List Cell) :
    (f.setCol n vs).col? n = some vs := by
  unfold Frame.setCol Frame.col?
  by_cases h : f.cols.any fun c => c.1 = n
  · simp [h, find?_map_setCol f.cols n vs h]
  · simp [h, List.find?_append, find?_none_of_not_any f.cols n h, List.find?]

theorem Frame.mem_colNames_setCol (f : Frame) (n m : String) (vs : List Cell)
    (hm : m ∈ (f.setCol n vs).colNames) : m ∈ f.colNames ∨ m = n := by
  unfold Frame.setCol at hm
  by_cases h : f.cols.any fun c => c.1 = n
  · left
    simp only [h, if_true, Frame.colNames, List.map_map] at hm
    rcases List.mem_map.mp hm with ⟨c, hc, hcm⟩
    by_cases hcn : c.1 = n
    · simp only [Function.comp, hcn, if_true] at hcm
      rw [Frame.colNames]
      exact hcm ▸ hcn ▸ List.mem_map_of_mem _ hc
    · simp only [Function.comp, hcn, if_false] at hcm
      rw [Frame.colNames]
      exact hcm ▸ List.mem_map_of_mem _ hc
  · simp only [h, Bool.false_eq_true, if_false, Frame.colNames, List.map_append,
      List.mem_append, List.map_cons, List.map_nil, List.mem_cons,
      List.not_mem_nil, or_false] at hm
    rcases hm with hm | hm
    · exact Or.inl hm
    · exact Or.inr hm

theorem find?_map_pair {β : Type} (l : List (String × β)) (n : String)
    (t : String × β → String × β) (ht : ∀ c, (t c).1 = c.1) :
    (l.map t).find? (fun c => c.1 = n) =
      ((l.find? fun c => c.1 = n).map t) := by
  induction l with
  | nil => simp
  | cons d tl ih =>
      by_cases hdn : d.1 = n
      · simp [List.find?, ht d, hdn]
      · simp [List.find?, ht d, hdn, ih]

theorem Frame.col?_maskRows (f : Frame) (mask : List Bool) (n : String) :
    (f.maskRows mask).col? n = (f.col? n).map (maskList mask) := by
  unfold Frame.maskRows Frame.col?
  rw [find?_map_pair f.cols n (fun c => (c.1, maskList mask c.2)) (fun c => rfl)]
  cases f.cols.find? fun c => c.1 = n <;> simp

/-! ## The similarity engine (`src/utils/geo/similarity.py`) -/

/-- A single reference record (`row` in the source): a pandas `Series` whose
`'geometry'` entry holds a geometry and whose remaining entries are key
values. -/
structure Row where
  geometry : Geom
  keyVals : List (String × Cell)
deriving DecidableEq, Repr

/-- `row[k]` for a non-geometry entry: `KeyError` when the label is absent. -/
def rowGet (row : Row) (k : String) : Except Err Cell :=
  match row.keyVals.find? fun c => c.1 = k with
  | some c => .ok c.2
  | none => .error (.keyError (some k))

/-- The two accepted collection shapes of the standardizer:
a `GeoDataFrame` (a table) or a `GeoSeries` (a bare ordered sequence of
geometries). -/
inductive GdfInput where
  | df (f : Frame)
  | gs (l : List (List Box))
deriving DecidableEq, Repr

/-- Python truthiness of the optional `key_col` argument: `None` and the empty
string are both falsy (`if key_col:` in the source). -/
def keyTruthy : Option String → Bool
  | none => false
  | some st => st != ""

/-- The column list built by `__standartize_gdf` for a `GeoDataFrame` input:
`['geometry']`, with `key_col` inserted in front when it is truthy and is a
column of the input (source lines 34–38). -/
def stdCols (f : Frame) (keyCol : Option String) : List (Option String) :=
  match keyCol with
  | some k => if k != "" && f.hasCol k then [some k, some "geometry"]
              else [some "geometry"]
  | none => [some "geometry"]

/-- `__standartize_gdf` (source lines 12–45): a `GeoDataFrame` is reduced to
its geometry column plus, when truthy and present, the key column in front
(`gdf[cols].copy()`); a `GeoSeries` is wrapped into a one-column geometry
table.  A `GeoDataFrame` without a `'geometry'` column raises `KeyError`. -/
def standartizeGdf (gdf : GdfInput) (keyCol : Option String) : Except Err Frame :=
  match gdf with
  | .df f => selectCols f (stdCols f keyCol)
  | .gs l => .ok ⟨[("geometry", l.map Cell.g)]⟩

/-- Lines 79–81 of `__similarity_by_intersection`, before the
`only_intersections` filter: intersect the geometry column with `geom`
(`gdf.intersection(geom)` computes `c ∩ geom` per record `c`), then append the
`inter_area` and `inter_perc` columns. -/
def interCore (geom : Geom) (gdf : Frame) : Frame :=
  let g1 := gdf.setCol "geometry"
    ((geomColD gdf).map fun c => Cell.g (geomInter c geom))
  let g2 := g1.setCol "inter_area"
    ((geomColD g1).map fun c => Cell.q (areaG c))
  g2.setCol "inter_perc"
    ((qColD g2 "inter_area").map fun a => Cell.q (a / areaG geom))

/-- Lines 119–120 of `__similarity_by_difference`, before the
`only_intersections` filter: replace the geometry column by
`geom.difference(c)` per record `c`, then append
`inter_perc = 1 - area/geom.area`.  No `inter_area` column is created. -/
def diffCore (geom : Geom) (gdf : Frame) : Frame :=
  let g1 := gdf.setCol "geometry"
    ((geomColD gdf).map fun c => Cell.g (geomDiff geom c))
  g1.setCol "inter_perc"
    ((geomColD g1).map fun c => Cell.q (1 - areaG c / areaG geom))

/-- `if only_intersections: gdf = gdf[gdf['inter_perc'] > 0]`
(source lines 83–84 and 122–123). -/
def onlyFilter (f : Frame) (onlyIntersections : Bool) : Frame :=
  if onlyIntersections then
    f.maskRows ((qColD f "inter_perc").map fun a => decide (0 < a))
  else f

/-- `__similarity_by_intersection` (source lines 48–86). -/
def simByIntersection (row : Row) (other : GdfInput) (rightKeyCol : Option String)
    (onlyIntersections : Bool) : Except Err Frame := do
  let gdf ← standartizeGdf other rightKeyCol
  pure (onlyFilter (interCore row.geometry gdf) onlyIntersections)

/-- `__similarity_by_difference` (source lines 88–125). -/
def simByDifference (row : Row) (other : GdfInput) (rightKeyCol : Option String)
    (onlyIntersections : Bool) : Except Err Frame := do
  let gdf ← standartizeGdf other rightKeyCol
  pure (onlyFilter (diffCore row.geometry gdf) onlyIntersections)

/-- `inter_total = gdf['inter_perc'].sum()` (source line 171). -/
def interTotal (f : Frame) : ℚ := (qColD f "inter_perc").sum

/-- Lines 170–172: divide every `inter_perc` by their sum.  Rational division
by zero yields `0` (the float code would produce `NaN`/`inf` instead; the
claims about renormalization only concern the non-zero-sum case). -/
def renormalize (f : Frame) : Frame :=
  let t := interTotal f
  f.setCol "inter_perc"
    (((f.col? "inter_perc").getD []).map fun c => Cell.q (cellQ c / t))

/-- Lines 167–172 of `__row_similarity`: optionally insert the reference key
column at position 0 (`gdf.insert(0, left_key_col, row[left_key_col])`), then
renormalize. -/
def rowFinish (row : Row) (leftKeyCol : Option String) (gdf : Frame) :
    Except Err Frame := do
  let gdf2 ←
    match leftKeyCol with
    | some k =>
        if k != "" then do
          let v ← rowGet row k
          gdf.insertCol0 k v
        else pure gdf
    | none => pure gdf
  pure (renormalize gdf2)

/-- `__row_similarity` (source lines 127–174).  A `method` other than
`'intersection'`/`'difference'` leaves the local variable `gdf` unassigned, so
the first subsequent use raises `UnboundLocalError` for `gdf`. -/
def rowSimilarity (row : Row) (other : GdfInput) (leftKeyCol rightKeyCol : Option String)
    (onlyIntersections : Bool) (method : String) : Except Err Frame :=
  if method == "intersection" then do
    let gdf ← simByIntersection row other rightKeyCol onlyIntersections
    rowFinish row leftKeyCol gdf
  else if method == "difference" then do
    let gdf ← simByDifference row other rightKeyCol onlyIntersections
    rowFinish row leftKeyCol gdf
  else .error (.unboundLocal "gdf")

/-! ## Overlay pipeline and dispatcher -/

/-- View a frame as its records (pandas row iteration): the `'geometry'`
column as geometry values (`KeyError` when absent, `TypeError` on a
non-geometry cell) and every other column contributing a key entry. -/
def frameRows (f : Frame) : Except Err (List Row) := do
  let gcol ←
    match f.col? "geometry" with
    | some v => pure v
    | none => .error (.keyError (some "geometry"))
  let geoms ← gcol.mapM fun c =>
    match c with
    | .g l => pure l
    | _ => Except.error Err.typeErr
  let others := f.cols.filter fun c => c.1 != "geometry"
  pure <| (List.range geoms.length).map fun i =>
    ⟨geoms.getD i [], others.filterMap fun c => (c.2.get? i).map fun v => (c.1, v)⟩

/-- Deduplicate keeping first occurrences (the grouping keys of a
`groupby`/`dissolve`, one output row per distinct key). -/
def firstDedupG {α : Type} [DecidableEq α] (l : List α) : List α :=
  l.foldl (fun acc x => if x ∈ acc then acc else acc ++ [x]) []

/-- Whether a single-part piece survives the erosion filter of
`__overlay_similarity` (source lines 196–197):
`piece.buffer(-min_intersection_radius**(1/2)).is_empty == False`.
For an axis-aligned box and radius `rad ≥ 0`, erosion by `√rad` is non-empty
exactly when both extents strictly exceed `2·√rad`, i.e. when both squared
extents strictly exceed `4·rad`; squaring keeps the test inside `ℚ`. -/
def erosionSurvives (rad : ℚ) (b : Box) : Bool :=
  decide (4 * rad < b.width ^ 2) && decide (4 * rad < b.height ^ 2)

/-- `overlay(gdf, other, how='intersection', keep_geom_type=True)` followed by
`explode(index_parts=False)` (source lines 187–195): one record per
single-part polygonal piece of a pairwise intersection.  A pair whose
intersection has no polygonal part (empty, a point, or a zero-width edge) is
dropped by `keep_geom_type=True`. -/
def overlayPieces (grows orows : List Row) : List (Row × Row × Box) :=
  (grows.flatMap fun gr => orows.filterMap fun orr =>
      let inter := geomInter gr.geometry orr.geometry
      if inter.isEmpty then none else some (gr, orr, inter)).flatMap
    fun t => t.2.2.map fun b => (t.1, t.2.1, b)

/-- The erosion filter (source lines 196–198): keep only the pieces whose
eroded form is non-empty. -/
def erodeFilter (rad : ℚ) (ps : List (Row × Row × Box)) : List (Row × Row × Box) :=
  ps.filter fun t => erosionSurvives rad t.2.2

/-- A dissolved overlay record: one per `(left_key, right_key)` pair. -/
structure DRec where
  lk : Cell
  rk : Cell
  geom : Geom
  interArea : ℚ
deriving DecidableEq, Repr

/-- The tail of `__overlay_similarity` after both standardizations (source
lines 187–222): overlay + explode, erosion filter, dissolve on
`[left_key_col, right_key_col]`, `inter_area`, the per-left-key grouped total
(`setor_weighted_area`, merged back on the shared key column), and
`inter_perc = inter_area / total`.  The dissolve's `groupby` resolves the two
grouping keys left to right: a supplied label absent from the frame raises
`KeyError` naming it, while a key parameter left at its default `None` is not
label-like and is handed to `index.map(None)` as a mapping grouper, which
raises `TypeError` (`'NoneType' object is not callable`).
The grouped union of `dissolve` is modelled as the concatenation of the
grouped parts (exact for the disjoint parts produced by an overlay);
`groupby`'s key sorting is not modelled — groups appear in first-occurrence
order, and no claim concerns the output row order. -/
def overlayTail (g o : Frame) (leftKeyCol rightKeyCol : Option String) (rad : ℚ) :
    Except Err Frame := do
  let grows ← frameRows g
  let orows ← frameRows o
  let surv := erodeFilter rad (overlayPieces grows orows)
  let lkName ←
    match leftKeyCol with
    | some k => if g.hasCol k then pure k else Except.error (Err.keyError (some k))
    | none => Except.error Err.typeErr
  let rkName ←
    match rightKeyCol with
    | some k => if o.hasCol k then pure k else Except.error (Err.keyError (some k))
    | none => Except.error Err.typeErr
  let recs ← surv.mapM fun t => do
    let lv ← rowGet t.1 lkName
    let rv ← rowGet t.2.1 rkName
    pure (lv, rv, t.2.2)
  let keys := firstDedupG (recs.map fun rc => (rc.1, rc.2.1))
  let drecs := keys.map fun kp =>
    let parts := (recs.filter fun rc => rc.1 = kp.1 ∧ rc.2.1 = kp.2).map (·.2.2)
    DRec.mk kp.1 kp.2 parts (areaG parts)
  let withPerc := drecs.map fun d =>
    let total := ((drecs.filter fun u => u.lk = d.lk).map (·.interArea)).sum
    (d, d.interArea / total)
  pure ⟨[(lkName, withPerc.map fun p => p.1.lk),
         (rkName, withPerc.map fun p => p.1.rk),
         ("geometry", withPerc.map fun p => Cell.g p.1.geom),
         ("inter_area", withPerc.map fun p => Cell.q p.1.interArea),
         ("inter_perc", withPerc.map fun p => Cell.q p.2)]⟩

/-- `__overlay_similarity` (source lines 176–222). -/
def overlaySimilarity (gdf other : GdfInput) (leftKeyCol rightKeyCol : Option String)
    (rad : ℚ) : Except Err Frame := do
  let g ← standartizeGdf gdf leftKeyCol
  let o ← standartizeGdf other rightKeyCol
  overlayTail g o leftKeyCol rightKeyCol rad

/-- The reference argument of `similarity`: a single record (`Series` /
`GeoSeries` holding one geometry, source line 266) or a whole collection. -/
inductive SimInput where
  | srow (r : Row)
  | coll (g : GdfInput)
deriving DecidableEq, Repr

/-- `other[[right_key_col, 'geometry']]` (source lines 267 and 270): column
selection on the comparison collection.  Label-based selection on a bare
`GeoSeries` (default integer index) finds no string label and raises
`KeyError` as well. -/
def selectOther (other : GdfInput) (rightKeyCol : Option String) : Except Err Frame :=
  match other with
  | .df f => selectCols f [rightKeyCol, some "geometry"]
  | .gs _ => .error (.keyError rightKeyCol)

/-- `concat(sim_gdf.values)` (source line 271): pandas `concat` of the
per-row results; raises `ValueError` on an empty list.  The frames produced by
the per-row calls share their column layout; columns are concatenated by
label in first-appearance order, missing entries filled with `NaN`. -/
def concatFrames (fs : List Frame) : Except Err Frame :=
  match fs with
  | [] => .error (.valueError "no objects to concatenate")
  | _ =>
    let names := firstDedupG (fs.flatMap Frame.colNames)
    .ok ⟨names.map fun n =>
      (n, fs.flatMap fun f => (f.col? n).getD (List.replicate f.nRows Cell.nan))⟩

/-- Python's `str.lower()` (structure-level character map; agrees with
`String.toLower` on the ASCII method names used here). -/
def strLower (s : String) : String := ⟨s.data.map Char.toLower⟩

/-- `similarity` (source lines 224–272): dispatch on `method.lower() ==
'overlay'`, else the row path — a single-record reference goes through
`__row_similarity` directly (the comparison selection
`other[[right_key_col, 'geometry']]` is evaluated as the call argument, line
267), a collection reference applies `__row_similarity` over its records and
concatenates.  On the collection branch the selection sits inside the applied
lambda (line 270), so it is evaluated once per record and never evaluated for
a zero-record collection: pandas' empty `apply` probes the lambda once inside
`try/except` and swallows any exception, returning no objects, and the call
then fails at `concat` (`ValueError`).  A single-record reference on the
overlay path reaches `geopandas.overlay` with a non-GeoDataFrame first
argument and fails there (`TypeError`); a bare geometry sequence reference
takes the single-record row branch (it is a `GeoSeries`) and fails at
`row['geometry']` (`KeyError`), after the comparison-column selection. -/
def similarity (gdf : SimInput) (other : GdfInput)
    (leftKeyCol rightKeyCol : Option String) (onlyIntersections : Bool)
    (method : String) (rad : ℚ) : Except Err Frame :=
  if strLower method == "overlay" then
    match gdf with
    | .coll g => overlaySimilarity g other leftKeyCol rightKeyCol rad
    | .srow _ => .error .typeErr
  else
    match gdf with
    | .srow r => do
        let sel ← selectOther other rightKeyCol
        rowSimilarity r (.df sel) leftKeyCol rightKeyCol onlyIntersections method
    | .coll (.df f) => do
        let rows ← frameRows f
        let outs ← rows.mapM fun r => do
          let sel ← selectOther other rightKeyCol
          rowSimilarity r (.df sel) leftKeyCol rightKeyCol onlyIntersections method
        concatFrames outs
    | .coll (.gs _) => do
        let _ ← selectOther other rightKeyCol
        .error (.keyError (some "geometry"))

/-! ## Supporting lemmas -/

theorem find?_map_setCol_ne (l : List (String × List Cell)) (n m : String)
    (vs : List Cell) (h : m ≠ n) :
    ((l.map fun c => if c.1 = n then (c.1, vs) else c).find? fun c => c.1 = m) =
      l.find? fun c => c.1 = m := by
  have hnm : ¬(n = m) := fun hh => h hh.symm
  induction l with
  | nil => simp
  | cons d t ih =>
      by_cases hdn : d.1 = n
      · have hdm : ¬(d.1 = m) := fun hh => h (hh ▸ hdn ▸ rfl)
        simp [List.find?, hdn, hdm, hnm, ih]
      · by_cases hdm : d.1 = m
        · have hmn : ¬(m = n) := h
          simp [List.find?, hdn, hdm, hmn, ih]
        · simp [List.find?, hdn, hdm, ih]

theorem Frame.col?_setCol_ne (f : Frame) (n m : String) (vs : List Cell)
    (h : m ≠ n) : (f.setCol n vs).col? m = f.col? m := by
  unfold Frame.setCol Frame.col?
  by_cases hany : f.cols.any fun c => c.1 = n
  · simp [hany, find?_map_setCol_ne f.cols n m vs h]
  · simp only [hany, Bool.false_eq_true, if_false]
    rw [List.find?_append]
    have hnm : ¬(n = m) := fun hh => h hh.symm
    have hone : ([(n, vs)].find? fun c => c.1 = m) = none := by
      simp [List.find?, hnm]
    simp [hone]

theorem maskList_map_self (vs : List Cell) (h : Cell → Bool) :
    maskList (vs.map h) vs = vs.filter h := by
  induction vs with
  | nil => rfl
  | cons c t ih =>
      by_cases hc : h c <;> simp [maskList, List.filter, hc] at ih ⊢ <;> exact ih

theorem sum_map_div (l : List ℚ) (t : ℚ) : (l.map fun x => x / t).sum = l.sum / t := by
  induction l with
  | nil => simp
  | cons x xs ih => simp [ih, add_div]

theorem sum_pos_of_mem (l : List ℚ) (hnn : ∀ x ∈ l, 0 ≤ x)
    (hex : ∃ x ∈ l, 0 < x) : 0 < l.sum := by
  induction l with
  | nil => rcases hex with ⟨x, hx, _⟩; cases hx
  | cons y ys ih =>
      rcases hex with ⟨x, hx, hxp⟩
      rcases List.mem_cons.mp hx with rfl | hx'
      · have : 0 ≤ ys.sum := List.sum_nonneg fun z hz => hnn z (List.mem_cons_of_mem _ hz)
        simpa using add_pos_of_pos_of_nonneg hxp this
      · have hpos : 0 < ys.sum :=
          ih (fun z hz => hnn z (List.mem_cons_of_mem _ hz)) ⟨x, hx', hxp⟩
        have : 0 ≤ y := hnn y (List.mem_cons_self _ _)
        simpa using add_pos_of_nonneg_of_pos this hpos

theorem sum_filter_pos (l : List ℚ) (hnn : ∀ x ∈ l, 0 ≤ x) :
    (l.filter fun x => decide (0 < x)).sum = l.sum := by
  induction l with
  | nil => rfl
  | cons y ys ih =>
      have hys : (ys.filter fun x => decide (0 < x)).sum = ys.sum :=
        ih fun z hz => hnn z (List.mem_cons_of_mem _ hz)
      by_cases hy : 0 < y
      · simp [List.filter, hy, hys]
      · have h0 : y = 0 := le_antisymm (not_lt.mp hy) (hnn y (List.mem_cons_self _ _))
        simp [List.filter, hy, hys, h0]

theorem map_cellQ_map_q {α : Type} (g : α → ℚ) (l : List α) :
    (l.map fun c => Cell.q (g c)).map cellQ = l.map g := by
  induction l with
  | nil => rfl
  | cons c t ih => simp [cellQ, ih]

theorem map_filter_comm (l : List Cell) (p : ℚ → Bool) :
    (l.filter fun c => p (cellQ c)).map cellQ = (l.map cellQ).filter p := by
  induction l with
  | nil => rfl
  | cons c t ih => by_cases hc : p (cellQ c) <;> simp [List.filter, hc, ih]

/-- The per-pair ratio computed by the selected row method, before any
filtering or renormalization. -/
def pairPerc (method : String) (g c : Geom) : ℚ :=
  if method == "intersection" then areaG (geomInter c g) / areaG g
  else 1 - areaG (geomDiff g c) / areaG g

theorem pairPerc_nonneg (method : String) (g c : Geom) : 0 ≤ pairPerc method g c := by
  unfold pairPerc
  by_cases hm : method == "intersection"
  · simp only [hm, if_true]
    exact div_nonneg (areaG_nonneg _) (areaG_nonneg _)
  · simp only [hm, Bool.false_eq_true, if_false, sub_nonneg]
    rcases eq_or_lt_of_le (areaG_nonneg g) with h0 | hpos
    · rw [← h0, div_zero]
      exact zero_le_one
    · exact (div_le_one hpos).mpr (areaG_geomDiff_le g c)

/-- The pre-filter frame built by the selected row method. -/
def coreOf (method : String) (g : Geom) (sf : Frame) : Frame :=
  if method == "intersection" then interCore g sf else diffCore g sf

theorem interCore_col_perc (g : Geom) (sf : Frame) :
    (interCore g sf).col? "inter_perc" =
      some ((geomColD sf).map fun c => Cell.q (areaG (geomInter c g) / areaG g)) := by
  unfold interCore
  rw [Frame.col?_setCol_self]
  unfold qColD
  rw [Frame.col?_setCol_self]
  unfold geomColD
  rw [Frame.col?_setCol_self]
  simp [Function.comp, cellGeomD, cellQ]

theorem interCore_col_area (g : Geom) (sf : Frame) :
    (interCore g sf).col? "inter_area" =
      some ((geomColD sf).map fun c => Cell.q (areaG (geomInter c g))) := by
  unfold interCore
  rw [Frame.col?_setCol_ne _ _ _ _ (by decide), Frame.col?_setCol_self]
  unfold geomColD
  rw [Frame.col?_setCol_self]
  simp [Function.comp, cellGeomD]

theorem interCore_col_geom (g : Geom) (sf : Frame) :
    (interCore g sf).col? "geometry" =
      some ((geomColD sf).map fun c => Cell.g (geomInter c g)) := by
  unfold interCore
  rw [Frame.col?_setCol_ne _ _ _ _ (by decide), Frame.col?_setCol_ne _ _ _ _ (by decide),
    Frame.col?_setCol_self]

theorem interCore_percs (g : Geom) (sf : Frame) :
    qColD (interCore g sf) "inter_perc" =
      (geomColD sf).map fun c => areaG (geomInter c g) / areaG g := by
  unfold qColD
  rw [interCore_col_perc]
  simp [Function.comp, cellQ]

theorem diffCore_col_perc (g : Geom) (sf : Frame) :
    (diffCore g sf).col? "inter_perc" =
      some ((geomColD sf).map fun c => Cell.q (1 - areaG (geomDiff g c) / areaG g)) := by
  unfold diffCore
  rw [Frame.col?_setCol_self]
  unfold geomColD
  rw [Frame.col?_setCol_self]
  simp [Function.comp, cellGeomD]

theorem diffCore_col_geom (g : Geom) (sf : Frame) :
    (diffCore g sf).col? "geometry" =
      some ((geomColD sf).map fun c => Cell.g (geomDiff g c)) := by
  unfold diffCore
  rw [Frame.col?_setCol_ne _ _ _ _ (by decide), Frame.col?_setCol_self]

theorem diffCore_percs (g : Geom) (sf : Frame) :
    qColD (diffCore g sf) "inter_perc" =
      (geomColD sf).map fun c => 1 - areaG (geomDiff g c) / areaG g := by
  unfold qColD
  rw [diffCore_col_perc]
  simp [Function.comp, cellQ]

theorem coreOf_percs (method : String) (g : Geom) (sf : Frame) :
    qColD (coreOf method g sf) "inter_perc" =
      (geomColD sf).map fun c => pairPerc method g c := by
  unfold coreOf pairPerc
  by_cases hm : method == "intersection"
  · simp [hm, interCore_percs]
  · simp [hm, diffCore_percs]

theorem coreOf_col_perc (method : String) (g : Geom) (sf : Frame) :
    (coreOf method g sf).col? "inter_perc" =
      some ((geomColD sf).map fun c => Cell.q (pairPerc method g c)) := by
  unfold coreOf pairPerc
  by_cases hm : method == "intersection"
  · simp [hm, interCore_col_perc]
  · simp [hm, diffCore_col_perc]

theorem renormalize_percs (f : Frame) (oc : List Cell)
    (hc : f.col? "inter_perc" = some oc) :
    qColD (renormalize f) "inter_perc" =
      (oc.map cellQ).map fun x => x / (oc.map cellQ).sum := by
  unfold renormalize interTotal qColD
  rw [Frame.col?_setCol_self, hc]
  simp [Function.comp, cellQ]

theorem insertCol0_ok (f : Frame) (n : String) (v : Cell) (f2 : Frame)
    (hok : f.insertCol0 n v = .ok f2) :
    ¬(f.cols.any fun c => c.1 = n) = true ∧
      f2 = ⟨(n, List.replicate f.nRows v) :: f.cols⟩ := by
  unfold Frame.insertCol0 at hok
  by_cases hany : f.cols.any fun c => c.1 = n
  · simp [hany] at hok
  · simp only [hany, Bool.false_eq_true, if_false, Except.ok.injEq] at hok
    exact ⟨hany, hok.symm⟩

theorem col?_cons_ne (n m : String) (vs : List Cell) (cs : List (String × List Cell))
    (h : n ≠ m) :
    Frame.col? ⟨(n, vs) :: cs⟩ m = Frame.col? ⟨cs⟩ m := by
  unfold Frame.col?
  simp [List.find?, h]

/-- `__row_similarity`'s epilogue keeps the `inter_perc` column of its input
and divides it by its own sum. -/
theorem rowFinish_percs (row : Row) (lkc : Option String) (f0 out : Frame)
    (oc : List Cell) (hc : f0.col? "inter_perc" = some oc)
    (hok : rowFinish row lkc f0 = .ok out) :
    qColD out "inter_perc" =
      (oc.map cellQ).map fun x => x / (oc.map cellQ).sum := by
  unfold rowFinish at hok
  rcases lkc with _ | k
  · simp only [bind, Except.bind, pure, Except.pure, Except.ok.injEq] at hok
    rw [← hok]
    exact renormalize_percs f0 oc hc
  · by_cases hk : k != ""
    · simp only [hk, if_true] at hok
      rcases hrg : rowGet row k with e | v <;> rw [hrg] at hok
      · simp [bind, Except.bind] at hok
      · simp only [bind, Except.bind] at hok
        rcases hins : f0.insertCol0 k v with e | f2
        · rw [hins] at hok
          simp [pure, Except.pure] at hok
        · rw [hins] at hok
          simp only [pure, Except.pure, Except.ok.injEq] at hok
          obtain ⟨hany, hf2⟩ := insertCol0_ok f0 k v f2 hins
          have hkne : k ≠ "inter_perc" := by
            intro hkk
            apply hany
            have hsome : (f0.col? "inter_perc").isSome := by rw [hc]; rfl
            unfold Frame.col? at hsome
            rcases hfind : f0.cols.find? fun c => c.1 = "inter_perc" with _ | c
            · rw [hfind] at hsome; simp at hsome
            · have hcp := List.find?_some hfind
              have hmem := List.mem_of_find?_eq_some hfind
              exact List.any_eq_true.mpr ⟨c, hmem, by rw [hkk]; exact hcp⟩
          have hcol2 : f2.col? "inter_perc" = some oc := by
            rw [hf2, col?_cons_ne k "inter_perc" _ _ hkne]
            exact hc
          rw [← hok]
          exact renormalize_percs f2 oc hcol2
    · simp only [hk, Bool.false_eq_true, if_false, bind, Except.bind, pure,
        Except.pure, Except.ok.injEq] at hok
      rw [← hok]
      exact renormalize_percs f0 oc hc

/-- Reduction of a successful `__row_similarity` call: the method is one of
the two row methods and the epilogue ran on the filtered core frame. -/
theorem rowSimilarity_ok (row : Row) (other : GdfInput)
    (lkc rkc : Option String) (onlyI : Bool) (method : String) (sf out : Frame)
    (hst : standartizeGdf other rkc = .ok sf)
    (hok : rowSimilarity row other lkc rkc onlyI method = .ok out) :
    (method = "intersection" ∨ method = "difference") ∧
      rowFinish row lkc (onlyFilter (coreOf method row.geometry sf) onlyI) = .ok out := by
  unfold rowSimilarity at hok
  by_cases hm : method == "intersection"
  · have hms : method = "intersection" := by simpa using hm
    refine ⟨Or.inl hms, ?_⟩
    simp only [hm, if_true, simByIntersection, hst, bind, Except.bind] at hok
    simpa [coreOf, hm, pure, Except.pure] using hok
  · by_cases hm2 : method == "difference"
    · have hms : method = "difference" := by simpa using hm2
      refine ⟨Or.inr hms, ?_⟩
      simp only [hm, Bool.false_eq_true, if_false, hm2, if_true, simByDifference,
        hst, bind, Except.bind] at hok
      simpa [coreOf, hm, pure, Except.pure] using hok
    · simp [hm, hm2] at hok

/-- The `inter_perc` cells surviving the `only_intersections` filter. -/
theorem onlyFilter_col_perc (method : String) (g : Geom) (sf : Frame) (onlyI : Bool) :
    (onlyFilter (coreOf method g sf) onlyI).col? "inter_perc" =
      some (if onlyI then
        ((geomColD sf).map fun c => Cell.q (pairPerc method g c)).filter
          fun c => decide (0 < cellQ c)
        else (geomColD sf).map fun c => Cell.q (pairPerc method g c)) := by
  unfold onlyFilter
  by_cases ho : onlyI
  · simp only [ho, if_true]
    rw [Frame.col?_maskRows, coreOf_col_perc]
    have hmask : (qColD (coreOf method g sf) "inter_perc").map (fun a => decide (0 < a)) =
        ((geomColD sf).map fun c => Cell.q (pairPerc method g c)).map
          fun c => decide (0 < cellQ c) := by
      rw [coreOf_percs]
      simp [Function.comp, cellQ]
    simp only [hmask, Option.map_some', Option.some.injEq, List.map_map]
    rw [← List.map_map]
    exact maskList_map_self _ _
  · simp only [ho, if_false]
    exact coreOf_col_perc method g sf

/-! ## Sample data for witnesses -/

/-- Unit square `[0,1] × [0,1]`. -/
def sqA : Box := ⟨0, 1, 0, 1⟩

/-- Square `[1/2,3/2] × [0,1]`, overlapping `sqA` on half its area. -/
def sqB : Box := ⟨1/2, 3/2, 0, 1⟩

/-- Square `[1,2] × [0,1]`, touching `sqA` only along the zero-width edge
`x = 1`. -/
def sqT : Box := ⟨1, 2, 0, 1⟩

/-- A reference record: the unit square with key value `"L1"`. -/
def sampleRow : Row := ⟨[sqA], [("lid", Cell.s "L1")]⟩

/-- A comparison collection with key column `"k"`: one overlapping and one
merely touching geometry. -/
def sampleOther : GdfInput :=
  .df ⟨[("k", [Cell.s "A", Cell.s "B"]),
        ("geometry", [Cell.g [sqB], Cell.g [sqT]])]⟩

/-- `sampleOther` standardized with key column `"k"`. -/
def sampleStd : Frame :=
  ⟨[("k", [Cell.s "A", Cell.s "B"]),
    ("geometry", [Cell.g [sqB], Cell.g [sqT]])]⟩

/-- The result frame of
`rowSimilarity sampleRow sampleOther (some "lid") (some "k") true "intersection"`. -/
def sampleRowOut : Frame :=
  ⟨[("lid", [Cell.s "L1"]), ("k", [Cell.s "A"]),
    ("geometry", [Cell.g [⟨1/2, 1, 0, 1⟩]]),
    ("inter_area", [Cell.q (1/2)]), ("inter_perc", [Cell.q 1])]⟩

/-! ## Claims C1–C4 -/

/-- **C1.** For the intersection method, given one reference geometry `g` with
positive area and a standardized comparison collection `C`, the engine
produces one record per record `c` of `C` with geometry `g ∩ c.geometry`,
`inter_area = area(g ∩ c.geometry)` and
`inter_perc = inter_area / area(g)`; and when `only_intersections` is true,
every record whose `inter_perc` is not strictly greater than `0` is dropped
from the result.  (`gdf.intersection(geom)` computes `c ∩ g` per record, the
same set intersection as `g ∩ c`.) -/
theorem claim_C1 (row : Row) (other : GdfInput) (rkc : Option String) (sf : Frame)
    (hst : standartizeGdf other rkc = .ok sf)
    (hpos : 0 < areaG row.geometry) :
    simByIntersection row other rkc false = .ok (interCore row.geometry sf) ∧
    (interCore row.geometry sf).col? "geometry" =
      some ((geomColD sf).map fun c => Cell.g (geomInter c row.geometry)) ∧
    (interCore row.geometry sf).col? "inter_area" =
      some ((geomColD sf).map fun c => Cell.q (areaG (geomInter c row.geometry))) ∧
    (interCore row.geometry sf).col? "inter_perc" =
      some ((geomColD sf).map fun c =>
        Cell.q (areaG (geomInter c row.geometry) / areaG row.geometry)) ∧
    simByIntersection row other rkc true =
      .ok ((interCore row.geometry sf).maskRows
        ((geomColD sf).map fun c =>
          decide (0 < areaG (geomInter c row.geometry) / areaG row.geometry))) := by
  refine ⟨?_, interCore_col_geom _ _, interCore_col_area _ _, interCore_col_perc _ _, ?_⟩
  · simp [simByIntersection, hst, onlyFilter, bind, Except.bind, pure, Except.pure]
  · simp only [simByIntersection, hst, bind, Except.bind, pure, Except.pure,
      onlyFilter, if_true, Except.ok.injEq]
    rw [interCore_percs]
    rw [List.map_map]
    rfl

unseal Rat.add Rat.sub Rat.mul Rat.inv in
theorem claim_C1_witness :
    standartizeGdf sampleOther (some "k") = .ok sampleStd ∧
    0 < areaG sampleRow.geometry ∧
    (interCore sampleRow.geometry sampleStd).col? "inter_perc" =
      some ((geomColD sampleStd).map fun c =>
        Cell.q (areaG (geomInter c sampleRow.geometry) / areaG sampleRow.geometry)) :=
  ⟨by decide, by decide,
    (claim_C1 sampleRow sampleOther (some "k") sampleStd (by decide) (by decide)).2.2.2.1⟩

/-- **C2.** For every reference geometry processed by the row methods
(`'intersection'` or `'difference'`) that has at least one match with non-zero
overlap, the `inter_perc` values in the returned records for that reference
geometry sum to exactly `1` (exactly, in the rational model): each pairwise
ratio is divided by the sum of the `inter_perc` values produced for that
reference geometry. -/
theorem claim_C2 (row : Row) (other : GdfInput) (lkc rkc : Option String)
    (onlyI : Bool) (method : String) (sf out : Frame)
    (hst : standartizeGdf other rkc = .ok sf)
    (hok : rowSimilarity row other lkc rkc onlyI method = .ok out)
    (hmatch : ∃ c ∈ geomColD sf, 0 < pairPerc method row.geometry c) :
    (qColD out "inter_perc").sum = 1 := by
  obtain ⟨-, hfin⟩ := rowSimilarity_ok row other lkc rkc onlyI method sf out hst hok
  set f0 := onlyFilter (coreOf method row.geometry sf) onlyI with hf0
  have hc : f0.col? "inter_perc" =
      some (if onlyI then
        ((geomColD sf).map fun c => Cell.q (pairPerc method row.geometry c)).filter
          fun c => decide (0 < cellQ c)
        else (geomColD sf).map fun c => Cell.q (pairPerc method row.geometry c)) :=
    onlyFilter_col_perc method row.geometry sf onlyI
  set oc := (if onlyI then
        ((geomColD sf).map fun c => Cell.q (pairPerc method row.geometry c)).filter
          fun c => decide (0 < cellQ c)
        else (geomColD sf).map fun c => Cell.q (pairPerc method row.geometry c))
    with hoc
  have hpercs := rowFinish_percs row lkc f0 out oc hc hfin
  have hnn : ∀ x ∈ oc.map cellQ, 0 ≤ x := by
    intro x hx
    rcases List.mem_map.mp hx with ⟨c, hcmem, rfl⟩
    have hcmem2 : c ∈ (geomColD sf).map fun c => Cell.q (pairPerc method row.geometry c) := by
      rw [hoc] at hcmem
      by_cases ho : onlyI
      · simp only [ho, if_true] at hcmem
        exact List.mem_of_mem_filter hcmem
      · simpa [ho] using hcmem
    rcases List.mem_map.mp hcmem2 with ⟨cg, -, rfl⟩
    simpa [cellQ] using pairPerc_nonneg method row.geometry cg
  have hex : ∃ x ∈ oc.map cellQ, 0 < x := by
    rcases hmatch with ⟨cg, hcg, hp⟩
    refine ⟨pairPerc method row.geometry cg, ?_, hp⟩
    have hcell : Cell.q (pairPerc method row.geometry cg) ∈
        (geomColD sf).map fun c => Cell.q (pairPerc method row.geometry c) :=
      List.mem_map_of_mem _ hcg
    have hcmem : Cell.q (pairPerc method row.geometry cg) ∈ oc := by
      rw [hoc]
      by_cases ho : onlyI
      · simp only [ho, if_true]
        exact List.mem_filter.mpr ⟨hcell, by simpa [cellQ] using hp⟩
      · simpa [ho] using hcell
    have : cellQ (Cell.q (pairPerc method row.geometry cg)) ∈ oc.map cellQ :=
      List.mem_map_of_mem _ hcmem
    simpa [cellQ] using this
  have hsum : 0 < (oc.map cellQ).sum := sum_pos_of_mem _ hnn hex
  rw [hpercs, sum_map_div]
  exact div_self (ne_of_gt hsum)

unseal Rat.add Rat.sub Rat.mul Rat.inv in
theorem claim_C2_witness :
    standartizeGdf sampleOther (some "k") = .ok sampleStd ∧
    rowSimilarity sampleRow sampleOther (some "lid") (some "k") true "intersection" =
      .ok sampleRowOut ∧
    (∃ c ∈ geomColD sampleStd, 0 < pairPerc "intersection" sampleRow.geometry c) ∧
    (qColD sampleRowOut "inter_perc").sum = 1 :=
  ⟨by decide, by decide, by decide,
    claim_C2 sampleRow sampleOther (some "lid") (some "k") true "intersection"
      sampleStd sampleRowOut (by decide) (by decide) (by decide)⟩

/-- **C3.** For the difference method, given one reference geometry `g` with
positive area and a standardized comparison collection, each output record
(before renormalization) stores the geometry `g − c.geometry` and
`inter_perc = 1 − area(g − c.geometry) / area(g)`, and the output contains no
`inter_area` column (the method only appends `inter_perc`, so `inter_area` is
absent whenever the standardized input does not already carry a column of that
name); the same `only_intersections` filtering rule (drop records with
`inter_perc` not strictly greater than `0`) applies. -/
theorem claim_C3 (row : Row) (other : GdfInput) (rkc : Option String) (sf : Frame)
    (hst : standartizeGdf other rkc = .ok sf)
    (hpos : 0 < areaG row.geometry) :
    simByDifference row other rkc false = .ok (diffCore row.geometry sf) ∧
    (diffCore row.geometry sf).col? "geometry" =
      some ((geomColD sf).map fun c => Cell.g (geomDiff row.geometry c)) ∧
    (diffCore row.geometry sf).col? "inter_perc" =
      some ((geomColD sf).map fun c =>
        Cell.q (1 - areaG (geomDiff row.geometry c) / areaG row.geometry)) ∧
    ("inter_area" ∉ sf.colNames → "inter_area" ∉ (diffCore row.geometry sf).colNames) ∧
    simByDifference row other rkc true =
      .ok ((diffCore row.geometry sf).maskRows
        ((geomColD sf).map fun c =>
          decide (0 < 1 - areaG (geomDiff row.geometry c) / areaG row.geometry))) := by
  refine ⟨?_, diffCore_col_geom _ _, diffCore_col_perc _ _, ?_, ?_⟩
  · simp [simByDifference, hst, onlyFilter, bind, Except.bind, pure, Except.pure]
  · intro hni hmem
    unfold diffCore at hmem
    rcases Frame.mem_colNames_setCol _ _ _ _ hmem with hmem1 | hip
    · rcases Frame.mem_colNames_setCol _ _ _ _ hmem1 with hmem2 | hgeo
      · exact hni hmem2
      · exact absurd hgeo (by decide)
    · exact absurd hip (by decide)
  · simp only [simByDifference, hst, bind, Except.bind, pure, Except.pure,
      onlyFilter, if_true, Except.ok.injEq]
    rw [diffCore_percs]
    rw [List.map_map]
    rfl

unseal Rat.add Rat.sub Rat.mul Rat.inv in
theorem claim_C3_witness :
    standartizeGdf sampleOther (some "k") = .ok sampleStd ∧
    0 < areaG sampleRow.geometry ∧
    (diffCore sampleRow.geometry sampleStd).col? "inter_perc" =
      some ((geomColD sampleStd).map fun c =>
        Cell.q (1 - areaG (geomDiff sampleRow.geometry c) / areaG sampleRow.geometry)) ∧
    ("inter_area" ∉ sampleStd.colNames →
      "inter_area" ∉ (diffCore sampleRow.geometry sampleStd).colNames) :=
  ⟨by decide, by decide,
    (claim_C3 sampleRow sampleOther (some "k") sampleStd (by decide) (by decide)).2.2.1,
    (claim_C3 sampleRow sampleOther (some "k") sampleStd (by decide) (by decide)).2.2.2.1⟩

/-- **C4.** For the row methods with `only_intersections` true, the
renormalization denominator (the sum of `inter_perc` values used as divisor)
equals the sum over all pairwise matches of the reference geometry computed
before the `only_intersections` filter is applied — the zero-overlap pairs the
filter drops contribute `0` to it, so the divisor is the pre-filter total. -/
theorem claim_C4 (row : Row) (other : GdfInput) (lkc rkc : Option String)
    (method : String) (sf out : Frame)
    (hst : standartizeGdf other rkc = .ok sf)
    (hok : rowSimilarity row other lkc rkc true method = .ok out) :
    interTotal (onlyFilter (coreOf method row.geometry sf) true) =
      interTotal (coreOf method row.geometry sf) ∧
    qColD out "inter_perc" =
      (qColD (onlyFilter (coreOf method row.geometry sf) true) "inter_perc").map
        fun x => x / interTotal (coreOf method row.geometry sf) := by
  have hc := onlyFilter_col_perc method row.geometry sf true
  simp only [if_true] at hc
  have hqfil : qColD (onlyFilter (coreOf method row.geometry sf) true) "inter_perc" =
      ((geomColD sf).map fun c => pairPerc method row.geometry c).filter
        fun x => decide (0 < x) := by
    unfold qColD
    rw [hc]
    simp only [Option.getD_some]
    rw [map_filter_comm _ fun x => decide (0 < x), map_cellQ_map_q]
  have hnn : ∀ x ∈ (geomColD sf).map fun c => pairPerc method row.geometry c, 0 ≤ x := by
    intro x hx
    rcases List.mem_map.mp hx with ⟨cg, -, rfl⟩
    exact pairPerc_nonneg method row.geometry cg
  have htot : interTotal (onlyFilter (coreOf method row.geometry sf) true) =
      interTotal (coreOf method row.geometry sf) := by
    unfold interTotal
    rw [hqfil, coreOf_percs]
    exact sum_filter_pos _ hnn
  refine ⟨htot, ?_⟩
  obtain ⟨-, hfin⟩ := rowSimilarity_ok row other lkc rkc true method sf out hst hok
  have hpercs := rowFinish_percs row lkc _ out _ hc hfin
  rw [hpercs]
  have hmc : (((geomColD sf).map fun c => Cell.q (pairPerc method row.geometry c)).filter
      (fun c => decide (0 < cellQ c))).map cellQ =
      qColD (onlyFilter (coreOf method row.geometry sf) true) "inter_perc" := by
    rw [hqfil, map_filter_comm _ fun x => decide (0 < x), map_cellQ_map_q]
  rw [hmc]
  have hsum : (qColD (onlyFilter (coreOf method row.geometry sf) true) "inter_perc").sum =
      interTotal (coreOf method row.geometry sf) := by
    rw [← htot]; rfl
  rw [hsum]

unseal Rat.add Rat.sub Rat.mul Rat.inv in
theorem claim_C4_witness :
    standartizeGdf sampleOther (some "k") = .ok sampleStd ∧
    rowSimilarity sampleRow sampleOther (some "lid") (some "k") true "intersection" =
      .ok sampleRowOut ∧
    interTotal (onlyFilter (coreOf "intersection" sampleRow.geometry sampleStd) true) =
      interTotal (coreOf "intersection" sampleRow.geometry sampleStd) :=
  ⟨by decide, by decide,
    (claim_C4 sampleRow sampleOther (some "lid") (some "k") "intersection"
      sampleStd sampleRowOut (by decide) (by decide)).1⟩

/-- **C6.** The standardizer, given either (a) a table containing a geometry
column or (b) a bare ordered sequence of geometries, returns a table
containing only a `'geometry'` column plus, only when a (truthy, i.e.
non-empty) key-column name was supplied and that column exists in a shape-(a)
input, that key column placed before the geometry column; when the requested
key-column name is absent from a shape-(a) input the key column is silently
omitted with no error, and a shape-(b) input is wrapped into a one-column
geometry table. -/
theorem claim_C6 (f : Frame) (kc : String) (gv : List Cell)
    (hg : f.col? "geometry" = some gv) :
    (∀ kv, kc ≠ "" → f.col? kc = some kv →
      standartizeGdf (.df f) (some kc) = .ok ⟨[(kc, kv), ("geometry", gv)]⟩) ∧
    (f.col? kc = none → standartizeGdf (.df f) (some kc) = .ok ⟨[("geometry", gv)]⟩) ∧
    standartizeGdf (.df f) none = .ok ⟨[("geometry", gv)]⟩ ∧
    (∀ (l : List (List Box)) (k2 : Option String),
      standartizeGdf (.gs l) k2 = .ok ⟨[("geometry", l.map Cell.g)]⟩) := by
  refine ⟨?_, ?_, ?_, fun l k2 => rfl⟩
  · intro kv hne hkv
    have htr : (kc != "") = true := by simpa using hne
    have hhas : f.hasCol kc = true := by unfold Frame.hasCol; rw [hkv]; rfl
    simp [standartizeGdf, stdCols, htr, hhas, selectCols, hkv, hg, bind, Except.bind,
      pure, Except.pure, List.mapM, List.mapM.loop]
  · intro habs
    have hhas : f.hasCol kc = false := by unfold Frame.hasCol; rw [habs]; rfl
    simp [standartizeGdf, stdCols, hhas, selectCols, hg, bind, Except.bind,
      pure, Except.pure, List.mapM, List.mapM.loop]
  · simp [standartizeGdf, stdCols, selectCols, hg, bind, Except.bind,
      pure, Except.pure, List.mapM, List.mapM.loop]

unseal Rat.add Rat.sub Rat.mul Rat.inv in
theorem claim_C6_witness :
    (Frame.col? ⟨[("k", [Cell.s "A", Cell.s "B"]),
        ("geometry", [Cell.g [sqB], Cell.g [sqT]])]⟩ "geometry" =
      some [Cell.g [sqB], Cell.g [sqT]]) ∧
    ("k" : String) ≠ "" ∧
    (Frame.col? ⟨[("k", [Cell.s "A", Cell.s "B"]),
        ("geometry", [Cell.g [sqB], Cell.g [sqT]])]⟩ "k" =
      some [Cell.s "A", Cell.s "B"]) ∧
    standartizeGdf (.df ⟨[("k", [Cell.s "A", Cell.s "B"]),
        ("geometry", [Cell.g [sqB], Cell.g [sqT]])]⟩) (some "k") =
      .ok ⟨[("k", [Cell.s "A", Cell.s "B"]),
            ("geometry", [Cell.g [sqB], Cell.g [sqT]])]⟩ ∧
    standartizeGdf (.df ⟨[("k", [Cell.s "A", Cell.s "B"]),
        ("geometry", [Cell.g [sqB], Cell.g [sqT]])]⟩) (some "zz") =
      .ok ⟨[("geometry", [Cell.g [sqB], Cell.g [sqT]])]⟩ :=
  ⟨by decide, by decide, by decide,
    (claim_C6 ⟨[("k", [Cell.s "A", Cell.s "B"]),
        ("geometry", [Cell.g [sqB], Cell.g [sqT]])]⟩ "k" _ (by decide)).1
      _ (by decide) (by decide),
    (claim_C6 ⟨[("k", [Cell.s "A", Cell.s "B"]),
        ("geometry", [Cell.g [sqB], Cell.g [sqT]])]⟩ "zz" _ (by decide)).2.1
      (by decide)⟩

/-! ## Claims C7, C8, C10 -/

/-- **C7, counterexample.** The claim asserts that an unsupported method value
such as `"Intersection"` fails with a clear "unsupported method" error.  In
fact the dispatch in `__row_similarity` has no `else` branch, so the local
variable `gdf` is never assigned and its first use raises
`UnboundLocalError('gdf')` — an error about a variable, not a purpose-built
unsupported-method error. -/
theorem claim_C7_counterexample :
    similarity (.srow sampleRow) sampleOther none (some "k") true "Intersection" 10 =
      .error (.unboundLocal "gdf") ∧
    Err.unboundLocal "gdf" ≠ Err.unsupportedMethod "Intersection" := by
  exact ⟨by decide, by decide⟩

/-- **C7 (amended).** The entry point matches the method case-insensitively
for `'overlay'` (so `method="Overlay"` runs the overlay path) and
case-sensitively otherwise; for every method value outside
`{'intersection', 'difference', case-insensitive 'overlay'}` (for example
`"Intersection"`) the row path fails — with Python's
`UnboundLocalError` for the never-assigned local `gdf`, not with a
purpose-built "unsupported method" error — rather than silently returning a
result. -/
theorem claim_C7 (other : GdfInput) (lkc rkc : Option String) (onlyI : Bool)
    (rad : ℚ) :
    (∀ g : GdfInput, similarity (.coll g) other lkc rkc onlyI "Overlay" rad =
      overlaySimilarity g other lkc rkc rad) ∧
    (∀ (r : Row) (method : String) (sel : Frame),
      strLower method ≠ "overlay" → method ≠ "intersection" → method ≠ "difference" →
      selectOther other rkc = .ok sel →
      similarity (.srow r) other lkc rkc onlyI method rad =
        .error (.unboundLocal "gdf")) := by
  constructor
  · intro g
    have hov : (strLower "Overlay" == "overlay") = true := by decide
    simp [similarity, hov]
  · intro r method sel hlow hint hdiff hsel
    have h1 : (strLower method == "overlay") = false := by
      simpa using hlow
    have h2 : (method == "intersection") = false := by simpa using hint
    have h3 : (method == "difference") = false := by simpa using hdiff
    simp [similarity, h1, hsel, rowSimilarity, h2, h3, bind, Except.bind]

unseal Rat.add Rat.sub Rat.mul Rat.inv in
theorem claim_C7_witness :
    strLower "Fancy" ≠ "overlay" ∧
    ("Fancy" : String) ≠ "intersection" ∧
    ("Fancy" : String) ≠ "difference" ∧
    selectOther sampleOther (some "k") = .ok sampleStd ∧
    similarity (.srow sampleRow) sampleOther none (some "k") true "Fancy" 10 =
      .error (.unboundLocal "gdf") ∧
    similarity (.coll (.gs [[sqA]])) sampleOther none (some "k") true "Overlay" 10 =
      overlaySimilarity (.gs [[sqA]]) sampleOther none (some "k") 10 :=
  ⟨by decide, by decide, by decide, by decide,
    (claim_C7 sampleOther none (some "k") true 10).2 sampleRow "Fancy" sampleStd
      (by decide) (by decide) (by decide) (by decide),
    (claim_C7 sampleOther none (some "k") true 10).1 (.gs [[sqA]])⟩

unseal Rat.add Rat.sub Rat.mul Rat.inv in
/-- **C10, counterexample.** The claim asserts that every row-method call
with `right_key_col` left at `None` or set to a non-column name fails with a
column-lookup error.  A zero-record reference collection refutes it: the
selection `other[[right_key_col, 'geometry']]` sits inside the per-record
lambda of the `apply` (source line 270), pandas' empty `apply` swallows the
probe call's exception, and the call fails at `concat` with
`ValueError` (`No objects to concatenate`) — not with a column-lookup
`KeyError` for the bad key (nor for `None`). -/
theorem claim_C10_counterexample :
    strLower "intersection" ≠ "overlay" ∧
    Frame.hasCol sampleStd "nope" = false ∧
    similarity (.coll (.df ⟨[("geometry", [])]⟩)) (.df sampleStd) none (some "nope")
        true "intersection" 10 =
      .error (.valueError "no objects to concatenate") ∧
    similarity (.coll (.df ⟨[("geometry", [])]⟩)) (.df sampleStd) none (some "nope")
        true "intersection" 10 ≠ .error (.keyError (some "nope")) ∧
    similarity (.coll (.df ⟨[("geometry", [])]⟩)) (.df sampleStd) none (some "nope")
        true "intersection" 10 ≠ .error (.keyError none) := by
  exact ⟨by decide, by decide, by decide, by decide, by decide⟩

/-- **C10 (amended).** For the row methods (anything but case-insensitive
`'overlay'`), the `similarity` entry point evaluates the selection
`other[[right_key_col, 'geometry']]` on the comparison collection for every
reference record it processes, so every call that processes at least one
record — a single-record reference, a collection with at least one record, or
a bare geometry sequence (handled on the single-record branch) — with
`right_key_col` left at its default `None`, or set to a name that is not a
column of the comparison collection, fails with a column-lookup `KeyError`:
`right_key_col` is effectively required on the row-method path even though
the interface marks it optional.  The one escape is a zero-record reference
collection, where the selection inside the per-record lambda is never
evaluated (pandas' empty `apply` swallows the probe call's exception) and the
call instead fails at the final concatenation with `ValueError`. -/
theorem claim_C10 (other : Frame) (lkc : Option String)
    (onlyI : Bool) (method : String) (rad : ℚ) (rkc : Option String)
    (hm : strLower method ≠ "overlay")
    (hbad : rkc = none ∨ ∃ k, rkc = some k ∧ other.hasCol k = false) :
    (∀ r : Row, similarity (.srow r) (.df other) lkc rkc onlyI method rad =
      .error (.keyError rkc)) ∧
    (∀ l : List Geom, similarity (.coll (.gs l)) (.df other) lkc rkc onlyI method rad =
      .error (.keyError rkc)) ∧
    (∀ (f : Frame) (r : Row) (rs : List Row), frameRows f = .ok (r :: rs) →
      similarity (.coll (.df f)) (.df other) lkc rkc onlyI method rad =
        .error (.keyError rkc)) ∧
    (∀ f : Frame, frameRows f = .ok [] →
      similarity (.coll (.df f)) (.df other) lkc rkc onlyI method rad =
        .error (.valueError "no objects to concatenate")) := by
  have h1 : (strLower method == "overlay") = false := by simpa using hm
  have hsel : selectOther (.df other) rkc = .error (.keyError rkc) := by
    rcases hbad with rfl | ⟨k, rfl, hk⟩
    · simp [selectOther, selectCols, List.mapM, List.mapM.loop, bind, Except.bind]
    · have : other.col? k = none := by
        unfold Frame.hasCol at hk
        exact Option.not_isSome_iff_eq_none.mp (by simp [hk])
      simp [selectOther, selectCols, List.mapM, List.mapM.loop, this, bind, Except.bind]
  refine ⟨?_, ?_, ?_, ?_⟩
  · intro r
    simp [similarity, h1, hsel, bind, Except.bind]
  · intro l
    simp [similarity, h1, hsel, bind, Except.bind]
  · intro f r rs hrows
    simp [similarity, h1, hrows, hsel, bind, Except.bind, List.mapM_cons,
      List.mapM, List.mapM.loop]
  · intro f hrows
    simp [similarity, h1, hrows, bind, Except.bind, List.mapM_nil, List.mapM,
      List.mapM.loop, pure, Except.pure, concatFrames]

unseal Rat.add Rat.sub Rat.mul Rat.inv in
theorem claim_C10_witness :
    strLower "intersection" ≠ "overlay" ∧
    similarity (.srow sampleRow) (.df sampleStd) none none true "intersection" 10 =
      .error (.keyError none) ∧
    frameRows ⟨[("geometry", [Cell.g [sqA]])]⟩ = .ok [⟨[sqA], []⟩] ∧
    Frame.hasCol sampleStd "nope" = false ∧
    similarity (.coll (.df ⟨[("geometry", [Cell.g [sqA]])]⟩)) (.df sampleStd)
      none (some "nope") true "intersection" 10 = .error (.keyError (some "nope")) := by
  have h0 := claim_C10 sampleStd none true "intersection" 10 none
    (by decide) (Or.inl rfl)
  have h2 := claim_C10 sampleStd none true "intersection" 10 (some "nope")
    (by decide) (Or.inr ⟨"nope", rfl, by decide⟩)
  exact ⟨by decide, h0.1 sampleRow, by decide, by decide,
    h2.2.2.1 ⟨[("geometry", [Cell.g [sqA]])]⟩ ⟨[sqA], []⟩ [] (by decide)⟩

/-! ## Claim C5 -/

theorem mapM_ok_mem {α β : Type} (f : α → Except Err β) :
    ∀ (l : List α) (l2 : List β), l.mapM f = .ok l2 → ∀ y ∈ l2, ∃ x ∈ l, f x = .ok y := by
  intro l
  induction l with
  | nil =>
      intro l2 hok y hy
      simp only [List.mapM_nil, pure, Except.pure, Except.ok.injEq] at hok
      rw [← hok] at hy
      cases hy
  | cons a t ih =>
      intro l2 hok y hy
      rw [List.mapM_cons] at hok
      rcases hfa : f a with e | b <;> rw [hfa] at hok
      · simp [bind, Except.bind] at hok
      · simp only [bind, Except.bind] at hok
        rcases hft : t.mapM f with e | bs <;> rw [hft] at hok
        · simp at hok
        · simp only [pure, Except.pure, Except.ok.injEq] at hok
          rw [← hok] at hy
          rcases List.mem_cons.mp hy with rfl | hy2
          · exact ⟨a, List.mem_cons_self _ _, hfa⟩
          · rcases ih bs hft y hy2 with ⟨x, hx, hfx⟩
            exact ⟨x, List.mem_cons_of_mem _ hx, hfx⟩

theorem foldl_dedup_mem {α : Type} [DecidableEq α] :
    ∀ (l acc : List α) (x : α),
      x ∈ l.foldl (fun acc y => if y ∈ acc then acc else acc ++ [y]) acc →
      x ∈ acc ∨ x ∈ l := by
  intro l
  induction l with
  | nil =>
      intro acc x h
      exact Or.inl h
  | cons a t ih =>
      intro acc x h
      simp only [List.foldl_cons] at h
      by_cases ha : a ∈ acc
      · rw [if_pos ha] at h
        rcases ih acc x h with h0 | h1
        · exact Or.inl h0
        · exact Or.inr (List.mem_cons_of_mem _ h1)
      · rw [if_neg ha] at h
        rcases ih (acc ++ [a]) x h with h0 | h1
        · rcases List.mem_append.mp h0 with h2 | h3
          · exact Or.inl h2
          · simp only [List.mem_singleton] at h3
            exact Or.inr (h3 ▸ List.mem_cons_self _ _)
        · exact Or.inr (List.mem_cons_of_mem _ h1)

theorem firstDedupG_mem {α : Type} [DecidableEq α] (l : List α) (x : α)
    (hx : x ∈ firstDedupG l) : x ∈ l := by
  unfold firstDedupG at hx
  rcases foldl_dedup_mem l [] x hx with h0 | h1
  · cases h0
  · exact h1

/-- Membership in the exploded overlay pieces: every piece comes from a pair
of input records whose polygonal intersection is non-empty, and is one of its
parts. -/
theorem overlayPieces_mem (grows orows : List Row) (t : Row × Row × Box)
    (ht : t ∈ overlayPieces grows orows) :
    ∃ gr ∈ grows, ∃ orr ∈ orows,
      t.1 = gr ∧ t.2.1 = orr ∧ geomInter gr.geometry orr.geometry ≠ [] ∧
      t.2.2 ∈ geomInter gr.geometry orr.geometry := by
  unfold overlayPieces at ht
  rcases List.mem_flatMap.mp ht with ⟨trip, htrip, hexp⟩
  rcases List.mem_map.mp hexp with ⟨b, hb, hbt⟩
  rcases List.mem_flatMap.mp htrip with ⟨gr, hgr, hfm⟩
  rcases List.mem_filterMap.mp hfm with ⟨orr, horr, heq⟩
  by_cases hemp : (geomInter gr.geometry orr.geometry).isEmpty
  · simp only [hemp, if_true] at heq
    cases heq
  · simp only [hemp, Bool.false_eq_true, if_false] at heq
    have h3 : (gr, orr, geomInter gr.geometry orr.geometry) = trip :=
      Option.some.inj heq
    subst h3
    refine ⟨gr, hgr, orr, horr, ?_, ?_, ?_, ?_⟩
    · rw [← hbt]
    · rw [← hbt]
    · intro hnil
      rw [hnil] at hemp
      exact hemp rfl
    · rw [← hbt]
      exact hb

/-- **C5.** In the overlay method, after exploding multi-part intersections,
every single-part piece whose inward erosion by
`sqrt(min_intersection_radius)` is empty is discarded from the result; in
particular, a comparison geometry that touches the reference geometry only
along a zero-width edge (zero-area overlap — `keep_geom_type=True` already
drops such non-polygonal intersections) contributes no output record for any
value of `min_intersection_radius`, including `0`. -/
theorem claim_C5 (gIn oIn : GdfInput) (lkName rkName : String) (rad : ℚ)
    (g o : Frame) (grows orows : List Row) (ck : Cell) (out : Frame)
    (hg : standartizeGdf gIn (some lkName) = .ok g)
    (ho : standartizeGdf oIn (some rkName) = .ok o)
    (hgr : frameRows g = .ok grows) (hor : frameRows o = .ok orows)
    (hne : lkName ≠ rkName)
    (hdeg : ∀ orr ∈ orows, rowGet orr rkName = .ok ck →
      ∀ gr ∈ grows, geomInter gr.geometry orr.geometry = [])
    (hok : overlaySimilarity gIn oIn (some lkName) (some rkName) rad = .ok out) :
    (∀ (ps : List (Row × Row × Box)) (t : Row × Row × Box),
      t ∈ erodeFilter rad ps → erosionSurvives rad t.2.2 = true) ∧
    ck ∉ (out.col? rkName).getD [] := by
  constructor
  · intro ps t ht
    exact (List.mem_filter.mp ht).2
  · simp only [overlaySimilarity, hg, ho, bind, Except.bind] at hok
    simp only [overlayTail, hgr, hor, bind, Except.bind] at hok
    rcases hlk : g.hasCol lkName with _ | _ <;> rw [hlk] at hok
    · simp at hok
    · rcases hrk : o.hasCol rkName with _ | _ <;> rw [hrk] at hok
      · simp [pure, Except.pure] at hok
      · simp only [pure, Except.pure, if_true] at hok
        split at hok
        · simp at hok
        · rename_i recs hrecs
          simp only [Except.ok.injEq] at hok
          rw [← hok]
          intro hmem
          simp only [Frame.col?, List.find?, hne, decide_eq_true_eq, if_false,
            decide_False, Option.map_some', Option.getD_some] at hmem
          rcases List.mem_map.mp hmem with ⟨p, hp, hpck⟩
          rcases List.mem_map.mp hp with ⟨d, hd, hdp⟩
          rcases List.mem_map.mp hd with ⟨kp, hkp, hkd⟩
          have hck : kp.2 = ck := by
            rw [← hpck, ← hdp, ← hkd]
          have hkp2 := firstDedupG_mem _ _ hkp
          rcases List.mem_map.mp hkp2 with ⟨rc, hrc, hrckp⟩
          have hrck : rc.2.1 = ck := by
            rw [← hck, ← hrckp]
          rcases mapM_ok_mem _ _ _ hrecs rc hrc with ⟨t, htsurv, hft⟩
          have hrg : rowGet t.2.1 rkName = .ok ck := by
            rcases h1 : rowGet t.1 lkName with e1 | lv <;> rw [h1] at hft
            · simp [bind, Except.bind] at hft
            · simp only [bind, Except.bind] at hft
              rcases h2 : rowGet t.2.1 rkName with e2 | rv <;> rw [h2] at hft
              · simp at hft
              · simp only [pure, Except.pure, Except.ok.injEq] at hft
                rw [← hft] at hrck
                simp only at hrck
                rw [hrck]
          have ht2 := (List.mem_filter.mp htsurv).1
          rcases overlayPieces_mem grows orows t ht2 with
            ⟨gr, hgrm, orr, horrm, ht1, htord, hnonnil, hbmem⟩
          rw [htord] at hrg
          exact hnonnil (hdeg orr horrm hrg gr hgrm)

/-- Overlay-path reference collection used by the C5 witness. -/
def ovRef : Frame := ⟨[("lk", [Cell.s "R"]), ("geometry", [Cell.g [sqA]])]⟩

/-- Overlay output for `ovRef` against `sampleOther` with radius `0`: only the
overlapping comparison record `"A"` contributes; the touching record `"B"`
does not. -/
def ovOut : Frame :=
  ⟨[("lk", [Cell.s "R"]), ("k", [Cell.s "A"]),
    ("geometry", [Cell.g [⟨1/2, 1, 0, 1⟩]]),
    ("inter_area", [Cell.q (1/2)]), ("inter_perc", [Cell.q 1])]⟩

/-- Records of `ovRef`. -/
def ovGrows : List Row := [⟨[sqA], [("lk", Cell.s "R")]⟩]

/-- Records of the standardized `sampleOther`. -/
def ovOrows : List Row :=
  [⟨[sqB], [("k", Cell.s "A")]⟩, ⟨[sqT], [("k", Cell.s "B")]⟩]

unseal Rat.add Rat.sub Rat.mul Rat.inv in
theorem claim_C5_witness :
    standartizeGdf (.df ovRef) (some "lk") = .ok ovRef ∧
    standartizeGdf sampleOther (some "k") = .ok sampleStd ∧
    frameRows ovRef = .ok ovGrows ∧
    frameRows sampleStd = .ok ovOrows ∧
    ("lk" : String) ≠ "k" ∧
    (∀ orr ∈ ovOrows, rowGet orr "k" = .ok (Cell.s "B") →
      ∀ gr ∈ ovGrows, geomInter gr.geometry orr.geometry = []) ∧
    overlaySimilarity (.df ovRef) sampleOther (some "lk") (some "k") 0 = .ok ovOut ∧
    Cell.s "B" ∉ (ovOut.col? "k").getD [] :=
  ⟨by decide, by decide, by decide, by decide, by decide, by decide, by decide,
    (claim_C5 (.df ovRef) sampleOther "lk" "k" 0 ovRef sampleStd ovGrows ovOrows
      (Cell.s "B") ovOut (by decide) (by decide) (by decide) (by decide)
      (by decide) (by decide) (by decide)).2⟩

/-! ## Claim C9: store model

The frame/ownership claim is about *which objects the engine writes to*, so
the value-level model above is complemented by a store model: pandas objects
live in a store, every library call that returns a new frame allocates
(`gdf[cols]`, `.copy()`, boolean-mask filtering, `overlay`, `concat`, …) and
every in-place column assignment (`gdf['geometry'] = …`, `gdf.insert(0, …)`)
mutates the store at the written reference.  The value transformations reuse
the definitions above. -/

/-- A heap object: one of the engine's pandas values. -/
inductive Obj where
  | df (f : Frame)
  | gs (l : List (List Box))
  | srow (r : Row)
  | aux
deriving DecidableEq, Repr

/-- An object store; references are indices.  Fresh objects are appended. -/
abbrev Store := List Obj

/-- Dereference (out-of-range references yield the inert `aux` object). -/
def Store.getO (s : Store) (r : Nat) : Obj := s.getD r Obj.aux

/-- Allocate a fresh object, returning its reference. -/
def Store.alloc (s : Store) (o : Obj) : Nat × Store := (s.length, s ++ [o])

/-- In-place overwrite of the object at `r` (no-op when out of range). -/
def Store.setO (s : Store) (r : Nat) (o : Obj) : Store := s.set r o

/-- All objects below `n` (the caller's pre-existing objects) are unchanged
between the two stores. -/
def preservedBelow (n : Nat) (s s2 : Store) : Prop :=
  ∀ i, i < n → s2.getO i = s.getO i

theorem getO_append_lt (s : Store) (o : Obj) (i : Nat) (h : i < s.length) :
    Store.getO (s ++ [o]) i = s.getO i := by
  unfold Store.getO
  rw [List.getD_eq_getElem?_getD, List.getD_eq_getElem?_getD,
    List.getElem?_append, if_pos h]

theorem getO_append_self (s : Store) (o : Obj) :
    Store.getO (s ++ [o]) s.length = o := by
  unfold Store.getO
  rw [List.getD_eq_getElem?_getD, List.getElem?_concat_length]
  rfl

theorem getO_set_ne (s : Store) (r : Nat) (o : Obj) (i : Nat) (h : i ≠ r) :
    Store.getO (s.setO r o) i = s.getO i := by
  unfold Store.getO Store.setO
  rw [List.getD_eq_getElem?_getD, List.getD_eq_getElem?_getD,
    List.getElem?_set_ne (fun hh => h hh.symm)]

/-- Store extension discipline: the store only grows and nothing below the
original length changes. -/
def storePres (s s2 : Store) : Prop :=
  s.length ≤ s2.length ∧ ∀ n, n ≤ s.length → preservedBelow n s s2

theorem storePres_refl (s : Store) : storePres s s :=
  ⟨le_refl _, fun _ _ _ _ => rfl⟩

theorem storePres_trans {s1 s2 s3 : Store} (h1 : storePres s1 s2)
    (h2 : storePres s2 s3) : storePres s1 s3 := by
  refine ⟨le_trans h1.1 h2.1, fun n hn i hi => ?_⟩
  rw [h2.2 n (le_trans hn h1.1) i hi, h1.2 n hn i hi]

theorem storePres_alloc (s : Store) (o : Obj) : storePres s (s.alloc o).2 := by
  refine ⟨by simp [Store.alloc], fun n hn i hi => ?_⟩
  exact getO_append_lt s o i (lt_of_lt_of_le hi hn)

theorem storePres_setO (s : Store) (r : Nat) (o : Obj) (hr : s.length ≤ r) :
    storePres s (s.setO r o) := by
  refine ⟨by simp [Store.setO], fun n hn i hi => ?_⟩
  exact getO_set_ne s r o i (Nat.ne_of_lt (lt_of_lt_of_le (lt_of_lt_of_le hi hn) hr))

theorem setO_length (s : Store) (r : Nat) (o : Obj) :
    (s.setO r o).length = s.length := by simp [Store.setO]

/-- `__standartize_gdf` at store level: a `GeoDataFrame` input is selected
and copied into a fresh object (`gdf[cols].copy()`); a `GeoSeries` is wrapped
into a fresh `GeoDataFrame`; any other object falls through both
`isinstance` checks and is returned unchanged — the caller's own reference. -/
def stdS (s : Store) (r : Nat) (k : Option String) : (Except Err Nat) × Store :=
  match s.getO r with
  | .df f =>
      match selectCols f (stdCols f k) with
      | .ok sel =>
          let a := s.alloc (.df sel)
          (.ok a.1, a.2)
      | .error e => (.error e, s)
  | .gs l =>
      let a := s.alloc (.df ⟨[("geometry", l.map Cell.g)]⟩)
      (.ok a.1, a.2)
  | _ => (.ok r, s)

/-- `__similarity_by_intersection` at store level: standardize (allocates a
fresh copy), write the three derived columns in place on that copy (lines
79–81), and, when filtering, allocate the filtered frame; with
`only_intersections=False` the mutated copy itself is returned. -/
def simByIntersectionS (s : Store) (row : Row) (otherRef : Nat)
    (rkc : Option String) (onlyI : Bool) : (Except Err Nat) × Store :=
  match stdS s otherRef rkc with
  | (.error e, s1) => (.error e, s1)
  | (.ok r1, s1) =>
      match s1.getO r1 with
      | .df f0 =>
          let s2 := s1.setO r1 (.df (interCore row.geometry f0))
          if onlyI then
            let a := s2.alloc (.df (onlyFilter (interCore row.geometry f0) true))
            (.ok a.1, a.2)
          else (.ok r1, s2)
      | _ => (.error .typeErr, s1)

/-- `__similarity_by_difference` at store level (lines 119–120 mutate the
standardized copy). -/
def simByDifferenceS (s : Store) (row : Row) (otherRef : Nat)
    (rkc : Option String) (onlyI : Bool) : (Except Err Nat) × Store :=
  match stdS s otherRef rkc with
  | (.error e, s1) => (.error e, s1)
  | (.ok r1, s1) =>
      match s1.getO r1 with
      | .df f0 =>
          let s2 := s1.setO r1 (.df (diffCore row.geometry f0))
          if onlyI then
            let a := s2.alloc (.df (onlyFilter (diffCore row.geometry f0) true))
            (.ok a.1, a.2)
          else (.ok r1, s2)
      | _ => (.error .typeErr, s1)

/-- Lines 167–172 at store level: `gdf.insert(0, …)` and the `inter_perc`
assignment both mutate the frame produced by the per-pair method in place,
and that same reference is returned. -/
def rowFinishS (s : Store) (row : Row) (lkc : Option String) (gref : Nat) :
    (Except Err Nat) × Store :=
  match s.getO gref with
  | .df f =>
      match (match lkc with
             | some k =>
                 if k != "" then do
                   let v ← rowGet row k
                   f.insertCol0 k v
                 else .ok f
             | none => (.ok f : Except Err Frame)) with
      | .ok f2 => (.ok gref, s.setO gref (.df (renormalize f2)))
      | .error e => (.error e, s)
  | _ => (.error .typeErr, s)

/-- `__row_similarity` at store level. -/
def rowSimilarityS (s : Store) (row : Row) (otherRef : Nat)
    (lkc rkc : Option String) (onlyI : Bool) (method : String) :
    (Except Err Nat) × Store :=
  if method == "intersection" then
    match simByIntersectionS s row otherRef rkc onlyI with
    | (.ok r1, s1) => rowFinishS s1 row lkc r1
    | (.error e, s1) => (.error e, s1)
  else if method == "difference" then
    match simByDifferenceS s row otherRef rkc onlyI with
    | (.ok r1, s1) => rowFinishS s1 row lkc r1
    | (.error e, s1) => (.error e, s1)
  else (.error (.unboundLocal "gdf"), s)

/-- Tail of `__overlay_similarity` at store level, after both standardizations: both standardizations allocate;
the overlay frame is freshly allocated and mutated in place (the `debuffed`
column and the derived columns), and the pipeline's intermediate frames
(explode, filters, dissolve, merge) are fresh allocations; the final frame is
a fresh object.  Intermediates are summarized by one `aux` allocation that is
also the only mutated object. -/
def overlayStage2 (s2 : Store) (rg ro : Nat) (lkc rkc : Option String)
    (rad : ℚ) : (Except Err Nat) × Store :=
  match s2.getO rg, s2.getO ro with
  | .df gf, .df od =>
      match overlayTail gf od lkc rkc rad with
      | .ok outF =>
          let a1 := s2.alloc .aux
          let s3 := a1.2.setO a1.1 .aux
          let a2 := s3.alloc (.df outF)
          (.ok a2.1, a2.2)
      | .error e =>
          let a1 := s2.alloc .aux
          let s3 := a1.2.setO a1.1 .aux
          (.error e, s3)
  | _, _ => (.error .typeErr, s2)

def overlaySimilarityS (s : Store) (gref oref : Nat)
    (lkc rkc : Option String) (rad : ℚ) : (Except Err Nat) × Store :=
  let p1 := stdS s gref lkc
  match p1.1 with
  | .error e => (.error e, p1.2)
  | .ok rg =>
      let p2 := stdS p1.2 oref rkc
      match p2.1 with
      | .error e => (.error e, p2.2)
      | .ok ro => overlayStage2 p2.2 rg ro lkc rkc rad

/-- The per-record loop of the bulk path (line 270): for each reference
record, select the comparison columns (a fresh object per iteration, as the
selection sits inside the applied lambda) and run `__row_similarity`. -/
def rowLoopS (s : Store) (rows : List Row) (otherRef : Nat)
    (lkc rkc : Option String) (onlyI : Bool) (method : String) :
    (Except Err (List Frame)) × Store :=
  match rows with
  | [] => (.ok [], s)
  | r :: rest =>
      match s.getO otherRef with
      | .df od =>
          match selectCols od [rkc, some "geometry"] with
          | .ok sel =>
              let a := s.alloc (.df sel)
              match rowSimilarityS a.2 r a.1 lkc rkc onlyI method with
              | (.ok rr, s1) =>
                  match s1.getO rr with
                  | .df rf =>
                      match rowLoopS s1 rest otherRef lkc rkc onlyI method with
                      | (.ok fs, s2) => (.ok (rf :: fs), s2)
                      | (.error e, s2) => (.error e, s2)
                  | _ => (.error .typeErr, s1)
              | (.error e, s1) => (.error e, s1)
          | .error e => (.error e, s)
      | .gs _ => (.error (.keyError rkc), s)
      | _ => (.error .typeErr, s)

/-- Line 271 at store level: `concat(sim_gdf.values)` allocates the final
result frame from the per-row frames. -/
def bulkTailS (sN : Store) (res : Except Err (List Frame)) :
    (Except Err Nat) × Store :=
  match res with
  | .ok fs =>
      match concatFrames fs with
      | .ok cf =>
          let a := sN.alloc (.df cf)
          (.ok a.1, a.2)
      | .error e => (.error e, sN)
  | .error e => (.error e, sN)

/-- `similarity` at store level. -/
def similarityS (s : Store) (gdfRef otherRef : Nat)
    (lkc rkc : Option String) (onlyI : Bool) (method : String) (rad : ℚ) :
    (Except Err Nat) × Store :=
  if strLower method == "overlay" then
    overlaySimilarityS s gdfRef otherRef lkc rkc rad
  else
    match s.getO gdfRef with
    | .srow r =>
        match s.getO otherRef with
        | .df od =>
            match selectCols od [rkc, some "geometry"] with
            | .ok sel =>
                let a := s.alloc (.df sel)
                rowSimilarityS a.2 r a.1 lkc rkc onlyI method
            | .error e => (.error e, s)
        | .gs _ => (.error (.keyError rkc), s)
        | _ => (.error .typeErr, s)
    | .df f =>
        let a0 := s.alloc (.df f)
        match frameRows f with
        | .error e => (.error e, a0.2)
        | .ok rows =>
            let p := rowLoopS a0.2 rows otherRef lkc rkc onlyI method
            bulkTailS p.2 p.1
    | .gs _ =>
        match s.getO otherRef with
        | .df od =>
            match selectCols od [rkc, some "geometry"] with
            | .ok sel =>
                let a := s.alloc (.df sel)
                (.error (.keyError (some "geometry")), a.2)
            | .error e => (.error e, s)
        | .gs _ => (.error (.keyError rkc), s)
        | _ => (.error .typeErr, s)
    | .aux => (.error .typeErr, s)

/-- The store has only grown, and every object below `n` is untouched. -/
def storeOKBelow (n : Nat) (s s2 : Store) : Prop :=
  s.length ≤ s2.length ∧ preservedBelow n s s2

theorem storeOKBelow_refl (n : Nat) (s : Store) : storeOKBelow n s s :=
  ⟨le_refl _, fun _ _ => rfl⟩

theorem storeOKBelow_trans {n : Nat} {s1 s2 s3 : Store}
    (h1 : storeOKBelow n s1 s2) (h2 : storeOKBelow n s2 s3) :
    storeOKBelow n s1 s3 := by
  refine ⟨le_trans h1.1 h2.1, fun i hi => ?_⟩
  rw [h2.2 i hi, h1.2 i hi]

theorem storeOKBelow_alloc (n : Nat) (s : Store) (o : Obj) (hn : n ≤ s.length) :
    storeOKBelow n s (s.alloc o).2 := by
  refine ⟨by simp [Store.alloc], fun i hi => ?_⟩
  exact getO_append_lt s o i (lt_of_lt_of_le hi hn)

theorem storeOKBelow_setO (n : Nat) (s : Store) (r : Nat) (o : Obj) (hr : n ≤ r) :
    storeOKBelow n s (s.setO r o) := by
  refine ⟨by simp [Store.setO], fun i hi => ?_⟩
  exact getO_set_ne s r o i (Nat.ne_of_lt (lt_of_lt_of_le hi hr))

theorem stdS_ok (s : Store) (r : Nat) (k : Option String) :
    (∀ n, n ≤ s.length → storeOKBelow n s (stdS s r k).2) ∧
    (∀ r2, (stdS s r k).1 = .ok r2 →
      (s.length ≤ r2 ∧ ∃ f, (stdS s r k).2.getO r2 = .df f) ∨
      (r2 = r ∧ (stdS s r k).2 = s ∧ (stdS s r k).2.getO r2 = s.getO r ∧
        ((∃ rr, s.getO r = .srow rr) ∨ s.getO r = .aux))) := by
  rcases hobj : s.getO r with f | l | rr | _ <;>
    simp only [stdS, hobj]
  · rcases hsel : selectCols f (stdCols f k) with e | sel <;> simp only [hsel]
    · exact ⟨fun n hn => storeOKBelow_refl n s, fun r2 h => by cases h⟩
    · refine ⟨fun n hn => storeOKBelow_alloc n s _ hn, fun r2 h => ?_⟩
      simp only [Store.alloc, Except.ok.injEq] at h
      left
      rw [← h]
      exact ⟨le_refl _, _, getO_append_self s _⟩
  · refine ⟨fun n hn => storeOKBelow_alloc n s _ hn, fun r2 h => ?_⟩
    simp only [Store.alloc, Except.ok.injEq] at h
    left
    rw [← h]
    exact ⟨le_refl _, _, getO_append_self s _⟩
  · refine ⟨fun n hn => storeOKBelow_refl n s, fun r2 h => ?_⟩
    simp only [Except.ok.injEq] at h
    exact Or.inr ⟨h.symm, by trivial, by rw [← h, hobj], Or.inl ⟨rr, rfl⟩⟩
  · refine ⟨fun n hn => storeOKBelow_refl n s, fun r2 h => ?_⟩
    simp only [Except.ok.injEq] at h
    exact Or.inr ⟨h.symm, by trivial, by rw [← h, hobj], Or.inr (by trivial)⟩

theorem simByIntersectionS_ok (s : Store) (row : Row) (otherRef : Nat)
    (rkc : Option String) (onlyI : Bool) :
    (∀ n, n ≤ s.length →
      storeOKBelow n s (simByIntersectionS s row otherRef rkc onlyI).2) ∧
    (∀ r2, (simByIntersectionS s row otherRef rkc onlyI).1 = .ok r2 →
      s.length ≤ r2) := by
  obtain ⟨hpres, hfresh⟩ := stdS_ok s otherRef rkc
  unfold simByIntersectionS
  rcases hstd : stdS s otherRef rkc with ⟨res, s1⟩
  have hp1 : ∀ n, n ≤ s.length → storeOKBelow n s s1 := fun n hn => by
    have := hpres n hn
    rw [hstd] at this
    exact this
  rcases res with e | r1
  · exact ⟨fun n hn => hp1 n hn, fun r2 h => by cases h⟩
  · have hf := hfresh r1 (by rw [hstd])
    rw [hstd] at hf
    rcases hf with ⟨hge, f0, hobj⟩ | ⟨heq, hseq, hgobj, hrest⟩
    · simp only [hobj]
      cases onlyI
      · constructor
        · intro n hn
          exact storeOKBelow_trans (hp1 n hn)
            (storeOKBelow_setO n s1 r1 (Obj.df (interCore row.geometry f0))
              (le_trans hn hge))
        · intro r2 h
          have h2 : r1 = r2 := Except.ok.inj h
          rw [← h2]
          exact hge
      · constructor
        · intro n hn
          refine storeOKBelow_trans (hp1 n hn) (storeOKBelow_trans
            (storeOKBelow_setO n s1 r1 (Obj.df (interCore row.geometry f0))
              (le_trans hn hge)) ?_)
          exact storeOKBelow_alloc n _ _
            (le_trans hn (le_trans (hp1 n hn).1
              (le_of_eq (setO_length s1 r1 (Obj.df (interCore row.geometry f0))).symm)))
        · intro r2 h
          have h2 : (s1.setO r1 (Obj.df (interCore row.geometry f0))).length = r2 :=
            Except.ok.inj h
          rw [← h2, setO_length]
          exact (hp1 s.length (le_refl _)).1
    · rcases hrest with ⟨rr, hsr⟩ | hax
      · have hgobj2 : s1.getO r1 = Obj.srow rr := hgobj.trans hsr
        simp only [hgobj2]
        exact ⟨fun n hn => hp1 n hn, fun r2 h => by cases h⟩
      · have hgobj2 : s1.getO r1 = Obj.aux := hgobj.trans hax
        simp only [hgobj2]
        exact ⟨fun n hn => hp1 n hn, fun r2 h => by cases h⟩

theorem simByDifferenceS_ok (s : Store) (row : Row) (otherRef : Nat)
    (rkc : Option String) (onlyI : Bool) :
    (∀ n, n ≤ s.length →
      storeOKBelow n s (simByDifferenceS s row otherRef rkc onlyI).2) ∧
    (∀ r2, (simByDifferenceS s row otherRef rkc onlyI).1 = .ok r2 →
      s.length ≤ r2) := by
  obtain ⟨hpres, hfresh⟩ := stdS_ok s otherRef rkc
  unfold simByDifferenceS
  rcases hstd : stdS s otherRef rkc with ⟨res, s1⟩
  have hp1 : ∀ n, n ≤ s.length → storeOKBelow n s s1 := fun n hn => by
    have := hpres n hn
    rw [hstd] at this
    exact this
  rcases res with e | r1
  · exact ⟨fun n hn => hp1 n hn, fun r2 h => by cases h⟩
  · have hf := hfresh r1 (by rw [hstd])
    rw [hstd] at hf
    rcases hf with ⟨hge, f0, hobj⟩ | ⟨heq, hseq, hgobj, hrest⟩
    · simp only [hobj]
      cases onlyI
      · constructor
        · intro n hn
          exact storeOKBelow_trans (hp1 n hn)
            (storeOKBelow_setO n s1 r1 (Obj.df (diffCore row.geometry f0))
              (le_trans hn hge))
        · intro r2 h
          have h2 : r1 = r2 := Except.ok.inj h
          rw [← h2]
          exact hge
      · constructor
        · intro n hn
          refine storeOKBelow_trans (hp1 n hn) (storeOKBelow_trans
            (storeOKBelow_setO n s1 r1 (Obj.df (diffCore row.geometry f0))
              (le_trans hn hge)) ?_)
          exact storeOKBelow_alloc n _ _
            (le_trans hn (le_trans (hp1 n hn).1
              (le_of_eq (setO_length s1 r1 (Obj.df (diffCore row.geometry f0))).symm)))
        · intro r2 h
          have h2 : (s1.setO r1 (Obj.df (diffCore row.geometry f0))).length = r2 :=
            Except.ok.inj h
          rw [← h2, setO_length]
          exact (hp1 s.length (le_refl _)).1
    · rcases hrest with ⟨rr, hsr⟩ | hax
      · have hgobj2 : s1.getO r1 = Obj.srow rr := hgobj.trans hsr
        simp only [hgobj2]
        exact ⟨fun n hn => hp1 n hn, fun r2 h => by cases h⟩
      · have hgobj2 : s1.getO r1 = Obj.aux := hgobj.trans hax
        simp only [hgobj2]
        exact ⟨fun n hn => hp1 n hn, fun r2 h => by cases h⟩

theorem rowFinishS_store (s : Store) (row : Row) (lkc : Option String) (gref : Nat) :
    ((rowFinishS s row lkc gref).2 = s ∨
      ∃ o, (rowFinishS s row lkc gref).2 = s.setO gref o) ∧
    (∀ r2, (rowFinishS s row lkc gref).1 = .ok r2 → r2 = gref) := by
  unfold rowFinishS
  rcases hobj : s.getO gref with f | l | rr | _ <;> simp only [hobj]
  · rcases lkc with _ | k
    · exact ⟨Or.inr ⟨_, rfl⟩, fun r2 h => (Except.ok.inj h).symm⟩
    · by_cases hk : (k != "") = true
      · simp only [hk, if_true]
        rcases hv : rowGet row k with e | v <;>
          simp only [hv, bind, Except.bind]
        · exact ⟨Or.inl trivial, fun r2 h => by cases h⟩
        · rcases hins : f.insertCol0 k v with e | f2 <;> simp only [hins]
          · exact ⟨Or.inl trivial, fun r2 h => by cases h⟩
          · exact ⟨Or.inr ⟨_, rfl⟩, fun r2 h => (Except.ok.inj h).symm⟩
      · simp only [hk, Bool.false_eq_true, if_false]
        exact ⟨Or.inr ⟨_, rfl⟩, fun r2 h => (Except.ok.inj h).symm⟩
  · exact ⟨Or.inl trivial, fun r2 h => by cases h⟩
  · exact ⟨Or.inl trivial, fun r2 h => by cases h⟩
  · exact ⟨Or.inl trivial, fun r2 h => by cases h⟩

theorem rowFinishS_okBelow (s : Store) (row : Row) (lkc : Option String)
    (gref : Nat) (n : Nat) (hg : n ≤ gref) :
    storeOKBelow n s (rowFinishS s row lkc gref).2 := by
  rcases (rowFinishS_store s row lkc gref).1 with h | ⟨o, h⟩
  · rw [h]
    exact storeOKBelow_refl n s
  · rw [h]
    exact storeOKBelow_setO n s gref o hg

theorem rowSimilarityS_ok (s : Store) (row : Row) (otherRef : Nat)
    (lkc rkc : Option String) (onlyI : Bool) (method : String) :
    (∀ n, n ≤ s.length →
      storeOKBelow n s (rowSimilarityS s row otherRef lkc rkc onlyI method).2) ∧
    (∀ r2, (rowSimilarityS s row otherRef lkc rkc onlyI method).1 = .ok r2 →
      s.length ≤ r2) := by
  unfold rowSimilarityS
  by_cases hm : (method == "intersection") = true
  · simp only [hm, if_true]
    obtain ⟨hp, hf⟩ := simByIntersectionS_ok s row otherRef rkc onlyI
    rcases hsim : simByIntersectionS s row otherRef rkc onlyI with ⟨res, s1⟩
    have hp1 : ∀ n, n ≤ s.length → storeOKBelow n s s1 := fun n hn => by
      have := hp n hn
      rw [hsim] at this
      exact this
    rcases res with e | r1
    · exact ⟨fun n hn => hp1 n hn, fun r2 h => by cases h⟩
    · have hr1 : s.length ≤ r1 := hf r1 (by rw [hsim])
      constructor
      · intro n hn
        exact storeOKBelow_trans (hp1 n hn)
          (rowFinishS_okBelow s1 row lkc r1 n (le_trans hn hr1))
      · intro r2 h
        rw [(rowFinishS_store s1 row lkc r1).2 r2 h]
        exact hr1
  · simp only [hm, Bool.false_eq_true, if_false]
    by_cases hm2 : (method == "difference") = true
    · simp only [hm2, if_true]
      obtain ⟨hp, hf⟩ := simByDifferenceS_ok s row otherRef rkc onlyI
      rcases hsim : simByDifferenceS s row otherRef rkc onlyI with ⟨res, s1⟩
      have hp1 : ∀ n, n ≤ s.length → storeOKBelow n s s1 := fun n hn => by
        have := hp n hn
        rw [hsim] at this
        exact this
      rcases res with e | r1
      · exact ⟨fun n hn => hp1 n hn, fun r2 h => by cases h⟩
      · have hr1 : s.length ≤ r1 := hf r1 (by rw [hsim])
        constructor
        · intro n hn
          exact storeOKBelow_trans (hp1 n hn)
            (rowFinishS_okBelow s1 row lkc r1 n (le_trans hn hr1))
        · intro r2 h
          rw [(rowFinishS_store s1 row lkc r1).2 r2 h]
          exact hr1
    · simp only [hm2, Bool.false_eq_true, if_false]
      exact ⟨fun n hn => storeOKBelow_refl n s, fun r2 h => by cases h⟩

theorem rowLoopS_ok (otherRef : Nat) (lkc rkc : Option String) (onlyI : Bool)
    (method : String) :
    ∀ (rows : List Row) (s : Store) (n : Nat), n ≤ s.length →
      storeOKBelow n s (rowLoopS s rows otherRef lkc rkc onlyI method).2 := by
  intro rows
  induction rows with
  | nil =>
      intro s n hn
      exact storeOKBelow_refl n s
  | cons r rest ih =>
      intro s n hn
      unfold rowLoopS
      rcases hobj : s.getO otherRef with f | l | rr | _ <;> simp only [hobj]
      · rcases hsel : selectCols f [rkc, some "geometry"] with e | sel <;>
          simp only [hsel]
        · exact storeOKBelow_refl n s
        · obtain ⟨hp, hf⟩ := rowSimilarityS_ok (s.alloc (Obj.df sel)).2 r
            (s.alloc (Obj.df sel)).1 lkc rkc onlyI method
          rcases hrs : rowSimilarityS (s.alloc (Obj.df sel)).2 r
              (s.alloc (Obj.df sel)).1 lkc rkc onlyI method with ⟨res, s1⟩
          have halloc : storeOKBelow n s (s.alloc (Obj.df sel)).2 :=
            storeOKBelow_alloc n s _ hn
          have hp1 : storeOKBelow n s s1 := by
            have := hp n (le_trans hn halloc.1)
            rw [hrs] at this
            exact storeOKBelow_trans halloc this
          rcases res with e | rr2 <;> simp only []
          · exact hp1
          · rcases hobj2 : s1.getO rr2 with f2 | l2 | rr3 | _ <;> simp only [hobj2]
            · rcases hloop : rowLoopS s1 rest otherRef lkc rkc onlyI method with
                ⟨res2, s2⟩
              have hp2 : storeOKBelow n s1 s2 := by
                have := ih s1 n (le_trans hn hp1.1)
                rw [hloop] at this
                exact this
              rcases res2 with e2 | fs <;> simp only []
              · exact storeOKBelow_trans hp1 hp2
              · exact storeOKBelow_trans hp1 hp2
            · exact hp1
            · exact hp1
            · exact hp1
      · exact storeOKBelow_refl n s
      · exact storeOKBelow_refl n s
      · exact storeOKBelow_refl n s

theorem overlayStage2_ok (s2 : Store) (rg ro : Nat) (lkc rkc : Option String)
    (rad : ℚ) :
    (∀ n, n ≤ s2.length →
      storeOKBelow n s2 (overlayStage2 s2 rg ro lkc rkc rad).2) ∧
    (∀ r2, (overlayStage2 s2 rg ro lkc rkc rad).1 = .ok r2 → s2.length ≤ r2) := by
  unfold overlayStage2
  rcases hog : s2.getO rg with gf | l | rr | _ <;> simp only [hog]
  · rcases hoo : s2.getO ro with od | l2 | rr2 | _ <;> simp only [hoo]
    · rcases hov : overlayTail gf od lkc rkc rad with e | outF <;> simp only [hov]
      · refine ⟨fun n hn => ?_, fun r2 h => by cases h⟩
        refine storeOKBelow_trans (storeOKBelow_alloc n s2 .aux hn) ?_
        exact storeOKBelow_setO n (s2.alloc Obj.aux).2 (s2.alloc Obj.aux).1 Obj.aux
          (le_trans hn (by first | exact Nat.le_refl _ | (simp only [Store.alloc, List.length_append, List.length_cons, List.length_nil]; omega)))
      · constructor
        · intro n hn
          refine storeOKBelow_trans (storeOKBelow_alloc n s2 .aux hn)
            (storeOKBelow_trans (storeOKBelow_setO n (s2.alloc Obj.aux).2
              (s2.alloc Obj.aux).1 Obj.aux
              (le_trans hn (by first | exact Nat.le_refl _ | (simp only [Store.alloc, List.length_append, List.length_cons, List.length_nil]; omega)))) ?_)
          refine storeOKBelow_alloc n _ _ ?_
          rw [setO_length]
          exact le_trans hn (by first | exact Nat.le_refl _ | (simp only [Store.alloc, List.length_append, List.length_cons, List.length_nil]; omega))
        · intro r2 h
          have h2 := Except.ok.inj h
          rw [← h2]
          show s2.length ≤
            ((s2.alloc Obj.aux).2.setO (s2.alloc Obj.aux).1 Obj.aux).length
          rw [setO_length]
          simp only [Store.alloc, List.length_append, List.length_cons,
            List.length_nil]
          omega
    · exact ⟨fun n hn => storeOKBelow_refl n s2, fun r2 h => by cases h⟩
    · exact ⟨fun n hn => storeOKBelow_refl n s2, fun r2 h => by cases h⟩
    · exact ⟨fun n hn => storeOKBelow_refl n s2, fun r2 h => by cases h⟩
  · exact ⟨fun n hn => storeOKBelow_refl n s2, fun r2 h => by cases h⟩
  · exact ⟨fun n hn => storeOKBelow_refl n s2, fun r2 h => by cases h⟩
  · exact ⟨fun n hn => storeOKBelow_refl n s2, fun r2 h => by cases h⟩

theorem overlaySimilarityS_ok (s : Store) (gref oref : Nat)
    (lkc rkc : Option String) (rad : ℚ) :
    (∀ n, n ≤ s.length →
      storeOKBelow n s (overlaySimilarityS s gref oref lkc rkc rad).2) ∧
    (∀ r2, (overlaySimilarityS s gref oref lkc rkc rad).1 = .ok r2 →
      s.length ≤ r2) := by
  obtain ⟨hpres1, -⟩ := stdS_ok s gref lkc
  unfold overlaySimilarityS
  rcases hstd1 : stdS s gref lkc with ⟨res1, s1⟩
  have hp1 : ∀ n, n ≤ s.length → storeOKBelow n s s1 := fun n hn => by
    have := hpres1 n hn
    rw [hstd1] at this
    exact this
  rcases res1 with e | rg <;> simp only []
  · exact ⟨fun n hn => hp1 n hn, fun r2 h => by cases h⟩
  · obtain ⟨hpres2, -⟩ := stdS_ok s1 oref rkc
    rcases hstd2 : stdS s1 oref rkc with ⟨res2, s2⟩
    have hp2 : ∀ n, n ≤ s.length → storeOKBelow n s s2 := fun n hn => by
      have := hpres2 n (le_trans hn (hp1 n hn).1)
      rw [hstd2] at this
      exact storeOKBelow_trans (hp1 n hn) this
    rcases res2 with e | ro <;> simp only []
    · exact ⟨fun n hn => hp2 n hn, fun r2 h => by cases h⟩
    · obtain ⟨hq, hqf⟩ := overlayStage2_ok s2 rg ro lkc rkc rad
      constructor
      · intro n hn
        exact storeOKBelow_trans (hp2 n hn)
          (hq n (le_trans hn (hp2 n hn).1))
      · intro r2 h
        exact le_trans (hp2 s.length (le_refl _)).1 (hqf r2 h)

theorem le_alloc_len (s : Store) (o : Obj) : s.length ≤ (s.alloc o).2.length := by
  simp only [Store.alloc, List.length_append, List.length_cons, List.length_nil]
  omega

theorem bulkTailS_ok (sN : Store) (res : Except Err (List Frame)) :
    (∀ n, n ≤ sN.length → storeOKBelow n sN (bulkTailS sN res).2) ∧
    (∀ r2, (bulkTailS sN res).1 = .ok r2 → sN.length ≤ r2) := by
  unfold bulkTailS
  rcases res with e | fs
  · exact ⟨fun n hn => storeOKBelow_refl n sN, fun r2 h => by cases h⟩
  · rcases hcf : concatFrames fs with e | cf <;> simp only [hcf]
    · exact ⟨fun n hn => storeOKBelow_refl n sN, fun r2 h => by cases h⟩
    · refine ⟨fun n hn => storeOKBelow_alloc n sN _ hn, fun r2 h => ?_⟩
      have h2 := Except.ok.inj h
      rw [← h2]
      exact Nat.le_refl _

theorem similarityS_ok (s : Store) (gdfRef otherRef : Nat)
    (lkc rkc : Option String) (onlyI : Bool) (method : String) (rad : ℚ) :
    (∀ n, n ≤ s.length →
      storeOKBelow n s (similarityS s gdfRef otherRef lkc rkc onlyI method rad).2) ∧
    (∀ r2, (similarityS s gdfRef otherRef lkc rkc onlyI method rad).1 = .ok r2 →
      s.length ≤ r2) := by
  unfold similarityS
  by_cases hov : (strLower method == "overlay") = true
  · simp only [hov, if_true]
    exact overlaySimilarityS_ok s gdfRef otherRef lkc rkc rad
  · simp only [hov, Bool.false_eq_true, if_false]
    rcases hobj : s.getO gdfRef with f | l | rr | _ <;> simp only [hobj]
    · rcases hfr : frameRows f with e | rows <;> simp only [hfr]
      · exact ⟨fun n hn => storeOKBelow_alloc n s _ hn, fun r2 h => by cases h⟩
      · obtain ⟨hb, hbf⟩ := bulkTailS_ok
          (rowLoopS (s.alloc (Obj.df f)).2 rows otherRef lkc rkc onlyI method).2
          (rowLoopS (s.alloc (Obj.df f)).2 rows otherRef lkc rkc onlyI method).1
        have hloop : ∀ n, n ≤ s.length →
            storeOKBelow n s
              (rowLoopS (s.alloc (Obj.df f)).2 rows otherRef lkc rkc onlyI method).2 :=
          fun n hn =>
            storeOKBelow_trans (storeOKBelow_alloc n s _ hn)
              (rowLoopS_ok otherRef lkc rkc onlyI method rows (s.alloc (Obj.df f)).2 n
                (le_trans hn (le_alloc_len s (Obj.df f))))
        constructor
        · intro n hn
          exact storeOKBelow_trans (hloop n hn) (hb n (le_trans hn (hloop n hn).1))
        · intro r2 h
          exact le_trans (hloop s.length (le_refl _)).1 (hbf r2 h)
    · rcases ho2 : s.getO otherRef with f2 | l2 | rr2 | _ <;> simp only [ho2]
      · rcases hsel : selectCols f2 [rkc, some "geometry"] with e | sel <;>
          simp only [hsel]
        · exact ⟨fun n hn => storeOKBelow_refl n s, fun r2 h => by cases h⟩
        · exact ⟨fun n hn => storeOKBelow_alloc n s _ hn, fun r2 h => by cases h⟩
      · exact ⟨fun n hn => storeOKBelow_refl n s, fun r2 h => by cases h⟩
      · exact ⟨fun n hn => storeOKBelow_refl n s, fun r2 h => by cases h⟩
      · exact ⟨fun n hn => storeOKBelow_refl n s, fun r2 h => by cases h⟩
    · rcases ho2 : s.getO otherRef with f2 | l2 | rr2 | _ <;> simp only [ho2]
      · rcases hsel : selectCols f2 [rkc, some "geometry"] with e | sel <;>
          simp only [hsel]
        · exact ⟨fun n hn => storeOKBelow_refl n s, fun r2 h => by cases h⟩
        · obtain ⟨hp, hf⟩ := rowSimilarityS_ok (s.alloc (Obj.df sel)).2 rr
            (s.alloc (Obj.df sel)).1 lkc rkc onlyI method
          constructor
          · intro n hn
            exact storeOKBelow_trans (storeOKBelow_alloc n s _ hn)
              (hp n (le_trans hn (le_alloc_len s (Obj.df sel))))
          · intro r2 h
            exact le_trans (le_alloc_len s (Obj.df sel)) (hf r2 h)
      · exact ⟨fun n hn => storeOKBelow_refl n s, fun r2 h => by cases h⟩
      · exact ⟨fun n hn => storeOKBelow_refl n s, fun r2 h => by cases h⟩
      · exact ⟨fun n hn => storeOKBelow_refl n s, fun r2 h => by cases h⟩
    · exact ⟨fun n hn => storeOKBelow_refl n s, fun r2 h => by cases h⟩

/-- **C9.** No call to the similarity engine mutates a caller-supplied
collection: in the store model, every pre-existing object is unchanged after
any `similarity` call (all column writes hit objects allocated during the
call), the returned result is a newly allocated object; and applying the
standardizer twice to the same original collection (a `GeoDataFrame` or
`GeoSeries` object in the store) yields two distinct fresh objects with equal
contents, the original again unchanged. -/
theorem claim_C9 (s : Store) (gdfRef otherRef : Nat) (lkc rkc : Option String)
    (onlyI : Bool) (method : String) (rad : ℚ) (r : Nat) (k : Option String) :
    preservedBelow s.length s
      (similarityS s gdfRef otherRef lkc rkc onlyI method rad).2 ∧
    (∀ res, (similarityS s gdfRef otherRef lkc rkc onlyI method rad).1 = .ok res →
      s.length ≤ res) ∧
    (r < s.length →
      ((∃ f, s.getO r = Obj.df f) ∨ (∃ l, s.getO r = Obj.gs l)) →
      ∀ r1 r2, (stdS s r k).1 = .ok r1 →
        (stdS (stdS s r k).2 r k).1 = .ok r2 →
        r1 ≠ r2 ∧
        (stdS (stdS s r k).2 r k).2.getO r1 =
          (stdS (stdS s r k).2 r k).2.getO r2 ∧
        preservedBelow s.length s (stdS (stdS s r k).2 r k).2) := by
  obtain ⟨hp, hf⟩ := similarityS_ok s gdfRef otherRef lkc rkc onlyI method rad
  refine ⟨(hp s.length (le_refl _)).2, fun res h => hf res h, ?_⟩
  intro hr hcoll r1 r2 hok1 hok2
  rcases hcoll with ⟨f, hobj⟩ | ⟨l, hobj⟩
  · rcases hsel : selectCols f (stdCols f k) with e | sel
    · rw [show stdS s r k = (.error e, s) from by simp [stdS, hobj, hsel]] at hok1
      cases hok1
    · have hstd1 : stdS s r k = (.ok s.length, s ++ [Obj.df sel]) := by
        simp [stdS, hobj, hsel, Store.alloc]
      rw [hstd1] at hok1 hok2 ⊢
      have hobj2 : Store.getO (s ++ [Obj.df sel]) r = Obj.df f := by
        rw [getO_append_lt s _ r hr]
        exact hobj
      have hstd2 : stdS (s ++ [Obj.df sel]) r k =
          (.ok (s ++ [Obj.df sel]).length,
            (s ++ [Obj.df sel]) ++ [Obj.df sel]) := by
        simp [stdS, hobj2, hsel, Store.alloc]
      rw [hstd2] at hok2 ⊢
      have hr1 : r1 = s.length := (Except.ok.inj hok1).symm
      have hr2 : r2 = (s ++ [Obj.df sel]).length := (Except.ok.inj hok2).symm
      subst hr1
      subst hr2
      refine ⟨?_, ?_, ?_⟩
      · simp only [List.length_append, List.length_cons, List.length_nil]
        omega
      · rw [getO_append_lt _ _ _ (by
          simp only [List.length_append, List.length_cons, List.length_nil]
          omega)]
        rw [getO_append_self, getO_append_self]
      · intro i hi
        rw [getO_append_lt _ _ _ (by
            simp only [List.length_append, List.length_cons, List.length_nil]
            omega),
          getO_append_lt _ _ _ hi]
  · have hstd1 : stdS s r k =
        (.ok s.length, s ++ [Obj.df ⟨[("geometry", l.map Cell.g)]⟩]) := by
      simp [stdS, hobj, Store.alloc]
    rw [hstd1] at hok1 hok2 ⊢
    have hobj2 : Store.getO (s ++ [Obj.df ⟨[("geometry", l.map Cell.g)]⟩]) r =
        Obj.gs l := by
      rw [getO_append_lt s _ r hr]
      exact hobj
    have hstd2 : stdS (s ++ [Obj.df ⟨[("geometry", l.map Cell.g)]⟩]) r k =
        (.ok (s ++ [Obj.df ⟨[("geometry", l.map Cell.g)]⟩]).length,
          (s ++ [Obj.df ⟨[("geometry", l.map Cell.g)]⟩]) ++
            [Obj.df ⟨[("geometry", l.map Cell.g)]⟩]) := by
      simp [stdS, hobj2, Store.alloc]
    rw [hstd2] at hok2 ⊢
    have hr1 : r1 = s.length := (Except.ok.inj hok1).symm
    have hr2 : r2 = (s ++ [Obj.df ⟨[("geometry", l.map Cell.g)]⟩]).length :=
      (Except.ok.inj hok2).symm
    subst hr1
    subst hr2
    refine ⟨?_, ?_, ?_⟩
    · simp only [List.length_append, List.length_cons, List.length_nil]
      omega
    · rw [getO_append_lt _ _ _ (by
        simp only [List.length_append, List.length_cons, List.length_nil]
        omega)]
      rw [getO_append_self, getO_append_self]
    · intro i hi
      rw [getO_append_lt _ _ _ (by
          simp only [List.length_append, List.length_cons, List.length_nil]
          omega),
        getO_append_lt _ _ _ hi]

unseal Rat.add Rat.sub Rat.mul Rat.inv in
theorem claim_C9_witness :
    (similarityS [Obj.srow sampleRow, Obj.df sampleStd] 0 1 (some "lid") (some "k")
        true "intersection" 10).1 = .ok 4 ∧
    ([Obj.srow sampleRow, Obj.df sampleStd] : Store).length ≤ 4 ∧
    (1 : Nat) < ([Obj.srow sampleRow, Obj.df sampleStd] : Store).length ∧
    Store.getO [Obj.srow sampleRow, Obj.df sampleStd] 1 = Obj.df sampleStd ∧
    (stdS [Obj.srow sampleRow, Obj.df sampleStd] 1 (some "k")).1 = .ok 2 ∧
    (stdS (stdS [Obj.srow sampleRow, Obj.df sampleStd] 1 (some "k")).2 1
        (some "k")).1 = .ok 3 ∧
    ((2 : Nat) ≠ 3 ∧
      (stdS (stdS [Obj.srow sampleRow, Obj.df sampleStd] 1 (some "k")).2 1
          (some "k")).2.getO 2 =
        (stdS (stdS [Obj.srow sampleRow, Obj.df sampleStd] 1 (some "k")).2 1
          (some "k")).2.getO 3 ∧
      preservedBelow ([Obj.srow sampleRow, Obj.df sampleStd] : Store).length
        [Obj.srow sampleRow, Obj.df sampleStd]
        (stdS (stdS [Obj.srow sampleRow, Obj.df sampleStd] 1 (some "k")).2 1
          (some "k")).2) :=
  ⟨by decide,
   (claim_C9 [Obj.srow sampleRow, Obj.df sampleStd] 0 1 (some "lid") (some "k")
      true "intersection" 10 1 (some "k")).2.1 4 (by decide),
   by decide, by decide, by decide, by decide,
   (claim_C9 [Obj.srow sampleRow, Obj.df sampleStd] 0 1 (some "lid") (some "k")
      true "intersection" 10 1 (some "k")).2.2 (by decide)
     (Or.inl ⟨sampleStd, by decide⟩) 2 3 (by decide) (by decide)⟩
